import Mathlib

/-!
Verification of the row-processing pipeline of the UK-company contact
discovery repository (common.py, phase1_discovery.py, phase2_contacts.py).

The Python sources are shallowly embedded: pure helpers become Lean
functions, the stateful row loops become explicit state-passing folds,
Python floats become rationals, and the opaque browser agent is an
oracle parameter.  File-system effects are recorded as an event trace.
-/

namespace BrowserAgent

/-! ## Python string primitives -/

/-- Model of Python `a or b` on strings (empty string is falsy). -/
def pyOr (a b : String) : String := if a = "" then b else a

/-- Whitespace as Python `str.strip()` sees it (ASCII). -/
def pySpace (c : Char) : Bool :=
  c = ' ' || c = '\t' || c = '\n' || c = '\r' || c = '\x0b' || c = '\x0c'

/-- Model of Python `str.strip()` with no argument (trims whitespace at
both ends). -/
def pyStrip (s : String) : String :=
  String.mk (((s.toList.dropWhile pySpace).reverse.dropWhile pySpace).reverse)

/-- Model of Python `str.lower()` (ASCII letters; the pipeline's data
is ASCII). -/
def pyLower (s : String) : String :=
  String.mk (s.toList.map (fun c =>
    if 'A' ≤ c ∧ c ≤ 'Z' then Char.ofNat (c.toNat + 32) else c))

/-- Truthiness of an optional string, as Python sees `None` and `""`:
both are falsy. -/
def optTruthy (o : Option String) : Bool := (o.getD "") ≠ ""

/-- Number of decimal digits in a string. -/
def countDigits (s : String) : Nat := (s.toList.filter Char.isDigit).length

/-! ## common.py: utilities -/

/-- Model of `common.clean_phone`: strip the string, then delete every
character that is not a digit and not a plus sign. -/
def clean_phone (p : String) : String :=
  String.mk ((pyStrip p).toList.filter (fun c => c.isDigit || c == '+'))

/-- Recursion of `common.dedupe_keep_order` with its `seen` set made
explicit (falsy, i.e. empty, entries are skipped). -/
def dedupeGo (seen : List String) : List String → List String
  | [] => []
  | x :: xs =>
    if x = "" then dedupeGo seen xs
    else if x ∈ seen then dedupeGo seen xs
    else x :: dedupeGo (x :: seen) xs

/-- Model of `common.dedupe_keep_order`. -/
def dedupe_keep_order (items : List String) : List String := dedupeGo [] items

/-- Specification-style first-occurrence de-duplication, used to state
what `dedupe_keep_order` computes. -/
def dedupFirst : List String → List String
  | [] => []
  | x :: xs => x :: dedupFirst (xs.filter (fun y => y ≠ x))
termination_by l => l.length
decreasing_by
  simp only [List.length_cons]
  exact Nat.lt_succ_of_le (List.length_filter_le _ _)

/-! ## common.py: column names -/

def OUT_COL_ADDRESS : String := "ADDRESS"
def OUT_COL_POSTCODE : String := "POSTCODE"
def OUT_COL_COMPANY_NAME : String := "COMPANY NAME"
def OUT_COL_WEBSITE : String := "WEBSITE"
def OUT_COL_EMAIL : String := "GENERAL EMAIL"
def OUT_COL_PHONE : String := "PHONE NUMBER"
def OUT_COL_CONTACT_NAME : String := "DIRECT CONTACT"
def OUT_COL_CONTACT_TITLE : String := "JOBTITLE"
def OUT_COL_CONTACT_LINKEDIN : String := "LINKEDIN"
def OUT_COL_CONTACT_EMAIL : String := "EMAIL"
def OUT_COL_GOVUK_URL : String := "GOV.UK URL"
def OUT_COL_SOURCE_URL : String := "source_url"
def OUT_COL_CONFIDENCE : String := "confidence"
def OUT_COL_NOTES : String := "notes"

/-- Column name of phone-family slot `k` (`k ≥ 2`), `"PHONE NUMBER k"`. -/
def phoneColName (k : Nat) : String := OUT_COL_PHONE ++ " " ++ toString k

/-! ## common.py: header management -/

/-- Model of `common.ensure_col_exact`: return the index of `name`,
appending it first when absent.  The possibly-extended header is
returned alongside the index (the Python function mutates its
argument). -/
def ensure_col_exact (header : List String) (name : String) : Nat × List String :=
  if name ∈ header then (header.indexOf name, header)
  else (header.length, header ++ [name])

/-- Append `name` to `header` unless already present (the raw
`if col not in header: header.append(col)` pattern). -/
def ensureCol (header : List String) (name : String) : List String :=
  if name ∈ header then header else header ++ [name]

/-- Model of `common.ensure_phone_cols`: make sure the base phone column
exists and, for `max_phones > 1`, the suffixed columns
`"PHONE NUMBER k"` for `k = 2 .. max_phones`. -/
def ensure_phone_cols (header : List String) (max_phones : Nat) : List String :=
  let h := ensureCol header OUT_COL_PHONE
  (List.range' 2 (max_phones - 1)).foldl (fun h k => ensureCol h (phoneColName k)) h

/-- Right-pad a row with empty cells up to length `n` (a no-op when the
row is already at least that long). -/
def padTo (row : List String) (n : Nat) : List String :=
  row ++ List.replicate (n - row.length) ""

/-- Loop body of `common.fill_phone_cols` over `enumerate(numbers)`:
state is (row, header, max_phones); `baseIdx` is the index of the base
phone column computed before the loop.  Slot 1 is written only when
empty; slots `k ≥ 2` are written unconditionally after growing the
header and right-padding the row. -/
def fillPhoneGo (baseIdx : Nat) : Nat → List String → List String → List String → Nat →
    List String × List String × Nat
  | _, [], row, header, m => (row, header, m)
  | k, v :: vs, row, header, m =>
    if k = 0 then
      fillPhoneGo baseIdx 1 vs (row.set baseIdx (pyOr (row.getD baseIdx "") v)) header m
      -- `row[base] = row[base] or val`: identical to `setOrKeep row baseIdx v`
    else
      let col := phoneColName (k + 1)
      let header' := ensureCol header col
      let idx := header'.indexOf col
      let row' := (padTo row (idx + 1)).set idx v
      fillPhoneGo baseIdx (k + 1) vs row' header' (max m (k + 1))

/-- Model of `common.fill_phone_cols`: fill the phone-number family of
one row, growing the header when needed, then `ensure_phone_cols` for
the family width just written.  Returns the updated row and header. -/
def fill_phone_cols (row header : List String) (numbers : List String) :
    List String × List String :=
  ((fillPhoneGo (header.indexOf OUT_COL_PHONE) 0 numbers row header 1).1,
   ensure_phone_cols (fillPhoneGo (header.indexOf OUT_COL_PHONE) 0 numbers row header 1).2.1
     (fillPhoneGo (header.indexOf OUT_COL_PHONE) 0 numbers row header 1).2.2)

/-! ## common.py: CSV layer

`write_rows` writes with `csv.writer(f, delimiter=dialect.delimiter,
quotechar='"', doublequote=True, lineterminator="\n",
quoting=csv.QUOTE_MINIMAL)`: only the delimiter comes from the sniffed
dialect.  `read_rows` re-sniffs the dialect of the file
(`sniff_dialect_and_header`, a statistical `csv.Sniffer` with
deterministic fallbacks) and parses with `csv.reader`, dropping blank
rows.  The sniffer's outcome is modelled as an explicit `ReadDialect`
parameter (delimiter and skipinitialspace; quote char `"` and
doublequote as produced by both the sniffer's usual outcome and the
fallback dialects). -/

/-- Detected dialect as the source's `sniff_dialect_and_header` returns
it: separator, quote character and line terminator. -/
structure Dialect where
  delimiter : Char
  quotechar : Char
  lineterminator : List Char
deriving DecidableEq

/-- Dialect data consumed by the reader model: the delimiter and the
skipinitialspace flag of the sniffed dialect. -/
structure ReadDialect where
  delimiter : Char
  skipinitialspace : Bool
deriving DecidableEq

/-- QUOTE_MINIMAL quoting test of `csv.writer`: a field is quoted iff it
contains the delimiter, the quote character, or a character of the
line terminator. -/
def needsQuoteW (d q : Char) (term : List Char) (s : List Char) : Bool :=
  s.any (fun c => c = d || c = q || c ∈ term)

/-- Double every occurrence of the quote character (doublequote mode). -/
def escQuoteW (q : Char) : List Char → List Char
  | [] => []
  | c :: cs => if c = q then q :: q :: escQuoteW q cs else c :: escQuoteW q cs

/-- One CSV field as `csv.writer` emits it. -/
def writeFieldW (d q : Char) (term : List Char) (s : String) : List Char :=
  if needsQuoteW d q term s.toList then q :: escQuoteW q s.toList ++ [q]
  else s.toList

/-- Fields of one record joined by the delimiter, followed by the line
terminator. -/
def writeRecordAuxW (d q : Char) (term : List Char) : List String → List Char
  | [] => term
  | [f] => writeFieldW d q term f ++ term
  | f :: fs => writeFieldW d q term f ++ d :: writeRecordAuxW d q term fs

/-- One record as `csv.writer.writerow` emits it; a record consisting of
a single empty field is quoted so that the line is not blank. -/
def writeRecordW (d q : Char) (term : List Char) (fs : List String) : List Char :=
  if fs = [""] then q :: q :: term else writeRecordAuxW d q term fs

/-- A whole table (one `writerow` per record). -/
def writeTableW (d q : Char) (term : List Char) (rows : List (List String)) : List Char :=
  (rows.map (writeRecordW d q term)).flatten

/-- File content produced by `common.write_rows`: header then rows,
using the sniffed dialect's delimiter but a hard-coded `"` quote
character and `"\n"` line terminator. -/
def write_rows_content (dl : Dialect) (header : List String) (rows : List (List String)) :
    List Char :=
  writeTableW dl.delimiter '"' ['\n'] (header :: rows)

/-- Modelled from the spec: the writer the specification describes,
which reuses the detected separator character, quote character and line
terminator of the input's dialect for every output.  Stated only to be
compared with `write_rows_content`. -/
def write_rows_spec (dl : Dialect) (header : List String) (rows : List (List String)) :
    List Char :=
  writeTableW dl.delimiter dl.quotechar dl.lineterminator (header :: rows)

/-! ### Reader (model of `csv.reader` as `read_rows` configures it) -/

/-- Drop one leading line feed (used after a carriage return). -/
def dropLf : List Char → List Char
  | '\n' :: r => r
  | r => r

/-- Consume an unquoted stretch of a field up to the delimiter or an
end of line; returns the content, the kind of terminator reached
(`some d`, `some '\n'`, or `none` at end of input) and the remainder. -/
def parseAppend (d : Char) : List Char → List Char × Option Char × List Char
  | [] => ([], none, [])
  | c :: rest =>
    if c = d then ([], some d, rest)
    else if c = '\n' then ([], some '\n', rest)
    else if c = '\r' then ([], some '\n', dropLf rest)
    else
      let (f, t, r) := parseAppend d rest
      (c :: f, t, r)

/-- Consume the inside of a quoted field (after the opening quote):
doubled quotes denote a literal quote, a single quote closes the
field. -/
def parseQuoted : List Char → List Char × List Char
  | [] => ([], [])
  | c :: rest =>
    if c = '"' then
      match rest with
      | [] => ([], [])
      | c2 :: rest2 =>
        if c2 = '"' then
          let (f, r) := parseQuoted rest2
          ('"' :: f, r)
        else ([], rest)
    else
      let (f, r) := parseQuoted rest
      (c :: f, r)

/-- One field: optionally skip initial spaces, then either a quoted
field (possibly continued by unquoted characters, as the non-strict
reader allows) or a plain unquoted field. -/
def parseField (dl : ReadDialect) (cs : List Char) : List Char × Option Char × List Char :=
  let cs' := if dl.skipinitialspace then cs.dropWhile (fun c => c = ' ') else cs
  match cs' with
  | [] => ([], none, [])
  | c :: rest =>
    if c = '"' then
      let (q, r) := parseQuoted rest
      let (u, t, r') := parseAppend dl.delimiter r
      (q ++ u, t, r')
    else parseAppend dl.delimiter cs'

/-- Fields of one record; the fuel bounds the number of fields and is
always sufficient at the call site because every field consumes at
least its terminator. -/
def parseRecordAux (dl : ReadDialect) : Nat → List Char → List (List Char) × List Char
  | 0, cs => ([], cs)
  | fuel + 1, cs =>
    let (f, t, rest) := parseField dl cs
    match t with
    | some c =>
      if c = dl.delimiter then
        let (fs, r) := parseRecordAux dl fuel rest
        (f :: fs, r)
      else ([f], rest)
    | none => ([f], rest)

/-- One record: a fully blank line is the empty record, as in
`csv.reader`. -/
def parseRecord (dl : ReadDialect) (cs : List Char) : List String × List Char :=
  match cs with
  | [] => ([], [])
  | c :: rest =>
    if c = '\n' then ([], rest)
    else if c = '\r' then ([], dropLf rest)
    else
      let (fs, r) := parseRecordAux dl (cs.length + 1) cs
      (fs.map String.mk, r)

/-- All records; the fuel bounds the number of records and is always
sufficient because every record consumes at least one character. -/
def parseTableAux (dl : ReadDialect) : Nat → List Char → List (List String)
  | 0, _ => []
  | fuel + 1, cs =>
    if cs.isEmpty then []
    else
      let (r, rest) := parseRecord dl cs
      r :: parseTableAux dl fuel rest

/-- Parse a whole file. -/
def parseTable (dl : ReadDialect) (cs : List Char) : List (List String) :=
  parseTableAux dl (cs.length + 1) cs

/-- Model of `common.read_rows` given the sniffed dialect: parse the
file and drop every row that is empty or whose cells are all blank. -/
def read_rows_content (dl : ReadDialect) (content : List Char) : List (List String) :=
  (parseTable dl content).filter (fun row => !row.isEmpty && row.any (fun c => pyStrip c ≠ ""))

/-! ## phase1_discovery.py: enrichment result and success predicate -/

/-- Model of `common.CompanyInfo` (pydantic model; every field
optional, `confidence` a float modelled as a rational). -/
structure CompanyInfo where
  company_name : Option String := none
  post_code : Option String := none
  website : Option String := none
  email : Option String := none
  numbers : Option (List String) := none
  contact_name : Option String := none
  contact_title : Option String := none
  contact_linkedin : Option String := none
  contact_email : Option String := none
  govuk_url : Option String := none
  source_url : Option String := none
  confidence : Option ℚ := none
  notes : Option String := none
deriving DecidableEq

/-- Model of `phase1_discovery.attempt_has_core`, with Python
truthiness made explicit: `None` fails; otherwise success when
(website and email) or (non-empty numbers list) or
(company_name and govuk_url). -/
def attempt_has_core (info : Option CompanyInfo) : Bool :=
  match info with
  | none => false
  | some i =>
    (optTruthy i.website && optTruthy i.email)
      || (i.numbers.getD []) ≠ []
      || (optTruthy i.company_name && optTruthy i.govuk_url)

/-- Phase 1 clean-up of an enrichment result's phone list
(phase1_discovery.main, the `if info.numbers:` block): clean each
entry, keep those whose cleaned form has at least 7 characters,
de-duplicate keeping first-seen order. -/
def phase1_clean_numbers (numbers : List String) : List String :=
  dedupe_keep_order ((numbers.map clean_phone).filter (fun n => 7 ≤ n.length))

/-! ## phase1_discovery.py: merge step -/

/-- Column indices of Phase 1's enrichment columns in the output
header. -/
structure P1Idx where
  address : Nat
  pc : Nat
  name : Nat
  site : Nat
  email : Nat
  phone : Nat
  govuk : Nat
  src : Nat
  conf : Nat
  notesIdx : Nat
deriving DecidableEq

/-- Phase 1's output-header construction (phase1_discovery.main):
`output_header = header[:]` followed by ten `ensure_col_exact` calls. -/
def build_output_header (header : List String) : List String × P1Idx :=
  let e1 := ensure_col_exact header OUT_COL_ADDRESS
  let e2 := ensure_col_exact e1.2 OUT_COL_POSTCODE
  let e3 := ensure_col_exact e2.2 OUT_COL_COMPANY_NAME
  let e4 := ensure_col_exact e3.2 OUT_COL_WEBSITE
  let e5 := ensure_col_exact e4.2 OUT_COL_EMAIL
  let e6 := ensure_col_exact e5.2 OUT_COL_PHONE
  let e7 := ensure_col_exact e6.2 OUT_COL_GOVUK_URL
  let e8 := ensure_col_exact e7.2 OUT_COL_SOURCE_URL
  let e9 := ensure_col_exact e8.2 OUT_COL_CONFIDENCE
  let e10 := ensure_col_exact e9.2 OUT_COL_NOTES
  (e10.2, ⟨e1.1, e2.1, e3.1, e4.1, e5.1, e6.1, e7.1, e8.1, e9.1, e10.1⟩)

/-- Model of the f-string `f"{confidence:.2f}"`: the confidence (a
float modelled as a rational) rendered with two decimal places. -/
def confFormat (q : ℚ) : String :=
  let n : ℤ := round (q * 100)
  let frac := (n % 100).natAbs
  toString (n / 100) ++ "." ++ (if frac < 10 then "0" else "") ++ toString frac

/-- Strip any leading or trailing `';'` and `' '` characters
(Python `.strip("; ")`). -/
def stripSemiSpace (s : String) : String :=
  let p : Char → Bool := fun c => c = ';' || c = ' '
  String.mk (((s.toList.dropWhile p).reverse.dropWhile p).reverse)

/-- The notes-combining expression:
`"; ".join([s for s in parts if s]).strip("; ")`. -/
def joinNotes (parts : List String) : String :=
  stripSemiSpace (String.intercalate "; " (parts.filter (fun s => s ≠ "")))

/-- The assignment pattern `row[i] = row[i] or value`. -/
def setOrKeep (row : List String) (i : Nat) (v : String) : List String :=
  row.set i (pyOr (row.getD i "") v)

/-- The assignment pattern
`if cond: row[i] = row[i] or value` (cond independent of the row). -/
def setOrKeepIf (guard : Bool) (row : List String) (i : Nat) (v : String) : List String :=
  if guard then setOrKeep row i v else row

/-- The confidence pattern:
`if confidence is not None and not row[i]: row[i] = f"{confidence:.2f}"`. -/
def setConf (o : Option ℚ) (row : List String) (i : Nat) : List String :=
  match o with
  | some c => if row.getD i "" = "" then row.set i (confFormat c) else row
  | none => row

/-- Model of Phase 1's merge step (phase1_discovery.main, the
`if info:` block after the retry loop): each enrichment field is
written into its column only through `row[i] = row[i] or value`
(or guarded by the cell being empty, for confidence), except the notes
column which is rewritten as the join of the existing notes, the
result's notes and the attempts marker. -/
def p1_merge (ix : P1Idx) (retries attempt : Nat) (address postcode : String)
    (info : CompanyInfo) (row : List String) : List String :=
  let row := setOrKeep row ix.address (pyOr address "")
  let row := setOrKeep row ix.pc (pyOr (info.post_code.getD "") (pyOr postcode ""))
  let row := setOrKeepIf (optTruthy info.company_name) row ix.name
    (pyStrip (info.company_name.getD ""))
  let row := setOrKeepIf (optTruthy info.website) row ix.site (pyStrip (info.website.getD ""))
  let row := setOrKeepIf (optTruthy info.email) row ix.email
    (pyLower (pyStrip (info.email.getD "")))
  let row := setOrKeepIf (optTruthy info.govuk_url) row ix.govuk
    (pyStrip (info.govuk_url.getD ""))
  let row := setOrKeepIf (optTruthy info.source_url) row ix.src
    (pyStrip (info.source_url.getD ""))
  let row := setConf info.confidence row ix.conf
  let existing := pyOr (row.getD ix.notesIdx "") ""
  let note := pyStrip (info.notes.getD "")
  let attemptsNote := "Phase1 attempts: " ++ toString attempt ++ "/" ++ toString retries
  row.set ix.notesIdx (joinNotes [existing, note, attemptsNote])

/-! ## Retry loop with jittered exponential backoff

Shared by both phases (`for attempt in range(1, ROW_RETRIES + 1)`); the
agent call is an oracle indexed by the attempt number, and
`random.uniform(0.0, 0.4 * sleep_s)` is an oracle of the attempt and
the current sleep.  Floats are modelled as rationals. -/

/-- Result of a row's retry loop: the last call's result, the value of
the `attempt` variable after the loop, the attempts at which the call
was invoked, and the durations of the backoff sleeps performed. -/
structure RetryResult (α : Type) where
  result : α
  lastAttempt : Nat
  calls : List Nat
  sleeps : List ℚ
deriving DecidableEq

/-- The retry loop from attempt `t` with `rem` attempts remaining,
current sleep `s` and previous result `last`.  On failure the loop
sleeps `min(max_sleep, s + jitter)` — also after the final attempt —
then grows `s` to `min(max_sleep, s * backoff_base)`. -/
def retryGo {α : Type} (call : Nat → α) (succ : α → Bool) (jitter : Nat → ℚ → ℚ)
    (maxS base : ℚ) : Nat → Nat → ℚ → α → RetryResult α
  | _, 0, _, last => ⟨last, 0, [], []⟩
  | t, rem + 1, s, _ =>
    let a := call t
    if succ a then ⟨a, t, [t], []⟩
    else
      let toSleep := min maxS (s + jitter t s)
      let s' := min maxS (s * base)
      if rem = 0 then ⟨a, t, [t], [toSleep]⟩
      else
        let r := retryGo call succ jitter maxS base (t + 1) rem s' a
        ⟨r.result, r.lastAttempt, t :: r.calls, toSleep :: r.sleeps⟩

/-- Phase 1's retry loop for one row (phase1_discovery.main): success
is `attempt_has_core`; an agent exception yields `none`. -/
def p1_retry (call : Nat → Option CompanyInfo) (jitter : Nat → ℚ → ℚ)
    (maxS base startS : ℚ) (retries : Nat) : RetryResult (Option CompanyInfo) :=
  retryGo call attempt_has_core jitter maxS base 1 retries startS none

/-! ## phase1_discovery.py: snapshots and the row loop -/

/-- File-system effects of a run, in order.  `checkpoint` is one
append to the per-run JSONL log; `snapshot` is a periodic full
overwrite of the partial CSV; `output` is the final write of the
output CSV; `finalSnapshot` is the end-of-run mirror write to the
partial CSV.  `ok = false` records that the write raised and the
exception was caught. -/
inductive Ev where
  | checkpoint (i : Nat) (ok : Bool)
  | snapshot (i : Nat) (header : List String) (rows : List (List String)) (ok : Bool)
  | output (header : List String) (rows : List (List String))
  | finalSnapshot (header : List String) (rows : List (List String)) (ok : Bool)
deriving DecidableEq

/-- Thread `fill_phone_cols` over `zip(rows, phone_lists)`, the header
mutating along (used by the snapshot writer and by the final fill of
phase 1). -/
def fillAll (header : List String) :
    List (List String) → List (List String) → List String × List (List String)
  | [], _ => (header, [])
  | rows, [] => (header, rows)
  | r :: rs, ns :: nss =>
    ((fillAll (fill_phone_cols r header ns).2 rs nss).1,
     (fill_phone_cols r header ns).1 :: (fillAll (fill_phone_cols r header ns).2 rs nss).2)

/-- Maximum length of the phone lists seen so far
(`max((len(x) for x in phone_lists), default=0)`). -/
def maxPhonesOf (phone_lists : List (List String)) : Nat :=
  (phone_lists.map List.length).foldr max 0

/-- Model of `phase1_discovery._write_partial_snapshot`: copy the
header, extend it to the maximal family width seen so far, right-pad
copies of the processed rows to the extended header, and fill each
row's phone numbers.  Returns the written header and rows. -/
def write_partial_snapshot (base_header : List String)
    (processed_rows phone_lists : List (List String)) :
    List String × List (List String) :=
  let header := ensure_phone_cols base_header (maxPhonesOf phone_lists)
  let rows_copy := processed_rows.map (fun r => r ++ List.replicate (header.length - r.length) "")
  fillAll header rows_copy phone_lists

/-- Phase 1 configuration knobs (environment variables; floats as
rationals, counts as naturals). -/
structure P1Config where
  PARTIAL_EVERY : Nat
  ROW_RETRIES : Nat
  RETRY_BACKOFF_BASE : ℚ
  RETRY_START_SLEEP : ℚ
  RETRY_MAX_SLEEP : ℚ
deriving DecidableEq

/-- Ambient context of Phase 1's row loop: configuration, column
indices, the fixed output header, the agent-call oracle
(row index → attempt → result, `none` covering exceptions), the jitter
oracle, and the success oracles of the best-effort checkpoint and
snapshot writes. -/
structure P1Ctx where
  cfg : P1Config
  ix : P1Idx
  H : List String
  call : Nat → Nat → Option CompanyInfo
  jitter : Nat → Nat → ℚ → ℚ
  ckOk : Nat → Bool
  snOk : Nat → Bool

/-- Accumulated state of Phase 1's row loop. -/
structure P1State where
  processed : List (List String)
  phones : List (List String)
  events : List Ev
deriving DecidableEq

/-- The periodic-snapshot event for row `i`, built from the state so
far. -/
def p1SnapEv (C : P1Ctx) (i : Nat) (processed phones : List (List String)) : Ev :=
  Ev.snapshot i (write_partial_snapshot C.H processed phones).1
    (write_partial_snapshot C.H processed phones).2 (C.snOk i)

/-- Events appended after row `i`: the best-effort checkpoint, then the
autosave snapshot when `PARTIAL_EVERY > 0` and `i` is a multiple of
it. -/
def p1RowEvents (C : P1Ctx) (i : Nat) (processed phones : List (List String)) : List Ev :=
  Ev.checkpoint i (C.ckOk i) ::
    (if 0 < C.cfg.PARTIAL_EVERY ∧ i % C.cfg.PARTIAL_EVERY = 0 then
      [p1SnapEv C i processed phones]
    else [])

/-- One iteration of Phase 1's row loop (phase1_discovery.main): pad
the row to the output header, skip when address and postcode are both
blank, otherwise run the retry loop, merge the last result and clean
its phone numbers. -/
def p1_step (C : P1Ctx) (st : P1State) (i : Nat) (row0 : List String) : P1State :=
  let row := row0 ++ List.replicate (C.H.length - row0.length) ""
  let address := pyStrip (row.getD C.ix.address "")
  let postcode := pyStrip (row.getD C.ix.pc "")
  if address = "" ∧ postcode = "" then
    let processed := st.processed ++ [row]
    let phones := st.phones ++ [[]]
    ⟨processed, phones, st.events ++ p1RowEvents C i processed phones⟩
  else
    let r := p1_retry (C.call i) (C.jitter i) C.cfg.RETRY_MAX_SLEEP
      C.cfg.RETRY_BACKOFF_BASE C.cfg.RETRY_START_SLEEP C.cfg.ROW_RETRIES
    let (row', nums) :=
      match r.result with
      | none => (row, ([] : List String))
      | some info =>
        (p1_merge C.ix C.cfg.ROW_RETRIES r.lastAttempt address postcode info row,
         if (info.numbers.getD []) ≠ [] then phase1_clean_numbers (info.numbers.getD [])
         else [])
    let processed := st.processed ++ [row']
    let phones := st.phones ++ [nums]
    ⟨processed, phones, st.events ++ p1RowEvents C i processed phones⟩

/-- Phase 1's row loop over the data rows, `i` the 1-based row index. -/
def p1_loop (C : P1Ctx) : Nat → List (List String) → P1State → P1State
  | _, [], st => st
  | i, r :: rs, st => p1_loop C (i + 1) rs (p1_step C st i r)

/-- Result of a full Phase 1 run. -/
structure P1Run where
  processed : List (List String)
  phones : List (List String)
  finalHeader : List String
  finalRows : List (List String)
  events : List Ev
deriving DecidableEq

/-- The context of a Phase 1 run for the given input header. -/
def p1Ctx (cfg : P1Config) (input_header : List String)
    (call : Nat → Nat → Option CompanyInfo) (jitter : Nat → Nat → ℚ → ℚ)
    (ckOk snOk : Nat → Bool) : P1Ctx :=
  ⟨cfg, (build_output_header input_header).2, (build_output_header input_header).1,
   call, jitter, ckOk, snOk⟩

/-- Model of `phase1_discovery.main` after start-up checks: run the row
loop, then extend the header to the final family width, fill every
row's phone columns and write the output file.  No snapshot is written
after the loop. -/
def p1_run (cfg : P1Config) (input_header : List String) (data_rows : List (List String))
    (call : Nat → Nat → Option CompanyInfo) (jitter : Nat → Nat → ℚ → ℚ)
    (ckOk snOk : Nat → Bool) : P1Run :=
  let C := p1Ctx cfg input_header call jitter ckOk snOk
  let st := p1_loop C 1 data_rows ⟨[], [], []⟩
  let H2 := ensure_phone_cols C.H (maxPhonesOf st.phones)
  ⟨st.processed, st.phones, (fillAll H2 st.processed st.phones).1,
   (fillAll H2 st.processed st.phones).2,
   st.events ++ [Ev.output (fillAll H2 st.processed st.phones).1
     (fillAll H2 st.processed st.phones).2]⟩

/-- The loop state after the first `k` data rows. -/
def p1_state_after (C : P1Ctx) (data_rows : List (List String)) (k : Nat) : P1State :=
  p1_loop C 1 (data_rows.take k) ⟨[], [], []⟩

/-! ## phase2_contacts.py -/

/-- The `TARGET_CONTACTS` clamp: `max(1, min(3, x))`. -/
def clampTargetContacts (x : Int) : Nat := (max 1 (min 3 x)).toNat

/-- One raw contact sub-record of the agent's `{"contacts": [...]}`
payload (each key possibly absent or null). -/
structure ContactItem where
  contact_name : Option String := none
  contact_title : Option String := none
  contact_linkedin : Option String := none
  contact_email : Option String := none
  source_url : Option String := none
  confidence : Option ℚ := none
  notes : Option String := none
deriving DecidableEq

/-- A parsed contact as `run_for_company` normalises it. -/
structure Contact where
  contact_name : String
  contact_title : String
  contact_linkedin : String
  contact_email : String
  source_url : String
  confidence : Option ℚ
  notes : String
deriving DecidableEq

/-- Normalisation of one payload item in
`phase2_contacts.run_for_company`: items whose name or title is
missing or blank after stripping are silently discarded. -/
def parseContactItem (it : ContactItem) : Option Contact :=
  let name := pyStrip (it.contact_name.getD "")
  let title := pyStrip (it.contact_title.getD "")
  if name = "" ∨ title = "" then none
  else some
    { contact_name := name
      contact_title := title
      contact_linkedin := pyOr (pyStrip (it.contact_linkedin.getD "")) ""
      contact_email := pyOr (pyLower (pyStrip (it.contact_email.getD ""))) ""
      source_url := pyOr (pyStrip (it.source_url.getD "")) ""
      confidence := it.confidence
      notes := pyOr (pyStrip (it.notes.getD "")) "" }

/-- Model of `phase2_contacts.run_for_company`'s parsing: a missing or
malformed payload (`none`) yields no contacts; otherwise normalise the
items, discarding blanks, and cap the list to `TARGET_CONTACTS`. -/
def run_for_company_contacts (target : Nat) (payload : Option (List ContactItem)) :
    List Contact :=
  match payload with
  | none => []
  | some items => (items.filterMap parseContactItem).take target

/-- Phase 2's retry loop for one row (phase2_contacts.main): an attempt
succeeds iff the parsed contact list is non-empty (`if contacts:`); an
agent exception yields `[]`. -/
def p2_retry (call : Nat → List Contact) (jitter : Nat → ℚ → ℚ)
    (maxS base startS : ℚ) (retries : Nat) : RetryResult (List Contact) :=
  retryGo call (fun cs => !cs.isEmpty) jitter maxS base 1 retries startS []

/-- Per-slot column indices built by
`phase2_contacts.ensure_contact_cols`. -/
structure ContactIdx where
  name : Nat
  title : Nat
  linkedin : Nat
  email : Nat
deriving DecidableEq

/-- Suffix of contact-slot column names: slot 1 bare, slot `k ≥ 2`
suffixed `" k"`. -/
def contactSuffix (k : Nat) : String := if k = 1 then "" else " " ++ toString k

/-- `ensure_contact_cols`'s loop for slots `k`, `k+1`, ... (`n` slots
remaining): four `ensure_col_exact` calls per slot. -/
def eccGo (header : List String) : Nat → Nat → List ContactIdx × List String
  | _, 0 => ([], header)
  | k, n + 1 =>
    let e1 := ensure_col_exact header (OUT_COL_CONTACT_NAME ++ contactSuffix k)
    let e2 := ensure_col_exact e1.2 (OUT_COL_CONTACT_TITLE ++ contactSuffix k)
    let e3 := ensure_col_exact e2.2 (OUT_COL_CONTACT_LINKEDIN ++ contactSuffix k)
    let e4 := ensure_col_exact e3.2 (OUT_COL_CONTACT_EMAIL ++ contactSuffix k)
    let r := eccGo e4.2 (k + 1) n
    (⟨e1.1, e2.1, e3.1, e4.1⟩ :: r.1, r.2)

/-- Model of `phase2_contacts.ensure_contact_cols` for slots
`1 .. max_contacts`. -/
def ensure_contact_cols (header : List String) (max_contacts : Nat) :
    List ContactIdx × List String :=
  eccGo header 1 max_contacts

/-- Column indices of Phase 2's shared columns. -/
structure P2Idx where
  name : Nat
  govuk : Nat
  src : Nat
  conf : Nat
  notesIdx : Nat
deriving DecidableEq

/-- Phase 2's merge of one contact into its slot (phase2_contacts.main,
the `for slot, contact in enumerate(...)` body): name/title and
non-empty linkedin/email written only if the cell is empty; source and
confidence set once if empty; the notes cell rewritten with the
contact's notes and the attempts marker appended. -/
def p2_merge_contact (ix : P2Idx) (retries attempt : Nat) (ci : ContactIdx) (c : Contact)
    (row : List String) : List String :=
  let row := row.set ci.name (pyOr (row.getD ci.name "") c.contact_name)
  let row := row.set ci.title (pyOr (row.getD ci.title "") c.contact_title)
  let row := if c.contact_linkedin ≠ "" then
      row.set ci.linkedin (pyOr (row.getD ci.linkedin "") c.contact_linkedin)
    else row
  let row := if c.contact_email ≠ "" then
      row.set ci.email (pyOr (row.getD ci.email "") c.contact_email)
    else row
  let row := if c.source_url ≠ "" ∧ row.getD ix.src "" = "" then row.set ix.src c.source_url
    else row
  let row := match c.confidence with
    | some q => if row.getD ix.conf "" = "" then row.set ix.conf (confFormat q) else row
    | none => row
  let attemptsNote := "Phase2 attempts: " ++ toString attempt ++ "/" ++ toString retries
  row.set ix.notesIdx
    (joinNotes [pyOr (row.getD ix.notesIdx "") "", pyOr c.notes "", attemptsNote])

/-- Merge the capped contact list slot by slot. -/
def p2MergeGo (ix : P2Idx) (retries attempt : Nat) :
    List ContactIdx → List Contact → List String → List String
  | _, [], row => row
  | [], _ :: _, row => row
  | ci :: cis, c :: cs, row =>
    p2MergeGo ix retries attempt cis cs (p2_merge_contact ix retries attempt ci c row)

/-- Phase 2 configuration knobs. -/
structure P2Config where
  PARTIAL_EVERY : Nat
  ROW_RETRIES : Nat
  RETRY_BACKOFF_BASE : ℚ
  RETRY_START_SLEEP : ℚ
  RETRY_MAX_SLEEP : ℚ
  TARGET_CONTACTS : Nat
deriving DecidableEq

/-- Ambient context of Phase 2's row loop; the agent call is an oracle
yielding, per row and attempt, the parsed payload handed to
`run_for_company_contacts`. -/
structure P2Ctx where
  cfg : P2Config
  ix : P2Idx
  cols : List ContactIdx
  H : List String
  payload : Nat → Nat → Option (List ContactItem)
  jitter : Nat → Nat → ℚ → ℚ
  ckOk : Nat → Bool
  snOk : Nat → Bool

/-- Accumulated state of Phase 2's row loop. -/
structure P2State where
  processed : List (List String)
  events : List Ev
deriving DecidableEq

/-- Events appended after Phase 2's row `i`: checkpoint, then the
autosave snapshot (which writes the current header and rows as they
are) when due. -/
def p2RowEvents (C : P2Ctx) (i : Nat) (processed : List (List String)) : List Ev :=
  Ev.checkpoint i (C.ckOk i) ::
    (if 0 < C.cfg.PARTIAL_EVERY ∧ i % C.cfg.PARTIAL_EVERY = 0 then
      [Ev.snapshot i C.H processed (C.snOk i)]
    else [])

/-- One iteration of Phase 2's row loop (phase2_contacts.main): pad the
row, skip when the company name is blank, otherwise retry the lookup
and merge up to `TARGET_CONTACTS` contacts. -/
def p2_step (C : P2Ctx) (st : P2State) (i : Nat) (row0 : List String) : P2State :=
  let row := row0 ++ List.replicate (C.H.length - row0.length) ""
  let company := pyStrip (pyOr (row.getD C.ix.name "") "")
  if company = "" then
    let processed := st.processed ++ [row]
    ⟨processed, st.events ++ p2RowEvents C i processed⟩
  else
    let r := p2_retry (fun t => run_for_company_contacts C.cfg.TARGET_CONTACTS (C.payload i t))
      (C.jitter i) C.cfg.RETRY_MAX_SLEEP C.cfg.RETRY_BACKOFF_BASE
      C.cfg.RETRY_START_SLEEP C.cfg.ROW_RETRIES
    let row' := p2MergeGo C.ix C.cfg.ROW_RETRIES r.lastAttempt C.cols
      (r.result.take C.cfg.TARGET_CONTACTS) row
    let processed := st.processed ++ [row']
    ⟨processed, st.events ++ p2RowEvents C i processed⟩

/-- Phase 2's row loop. -/
def p2_loop (C : P2Ctx) : Nat → List (List String) → P2State → P2State
  | _, [], st => st
  | i, r :: rs, st => p2_loop C (i + 1) rs (p2_step C st i r)

/-- Result of a full Phase 2 run. -/
structure P2Run where
  processed : List (List String)
  finalHeader : List String
  finalRows : List (List String)
  events : List Ev
deriving DecidableEq

/-- Phase 2's output-header construction: five shared columns then the
contact-slot columns for `1 .. TARGET_CONTACTS`. -/
def p2BuildHeader (input_header : List String) (target : Nat) :
    List String × P2Idx × List ContactIdx :=
  let e1 := ensure_col_exact input_header OUT_COL_COMPANY_NAME
  let e2 := ensure_col_exact e1.2 OUT_COL_GOVUK_URL
  let e3 := ensure_col_exact e2.2 OUT_COL_SOURCE_URL
  let e4 := ensure_col_exact e3.2 OUT_COL_CONFIDENCE
  let e5 := ensure_col_exact e4.2 OUT_COL_NOTES
  let ec := ensure_contact_cols e5.2 target
  (ec.2, ⟨e1.1, e2.1, e3.1, e4.1, e5.1⟩, ec.1)

/-- Model of `phase2_contacts.main` after start-up checks: run the row
loop, re-ensure the base phone column, write the output file, then
write the final mirror snapshot to the partial path (best-effort,
`finOk` records whether that last write raised). -/
def p2_run (cfg : P2Config) (input_header : List String) (data_rows : List (List String))
    (payload : Nat → Nat → Option (List ContactItem)) (jitter : Nat → Nat → ℚ → ℚ)
    (ckOk snOk : Nat → Bool) (finOk : Bool) : P2Run :=
  let C : P2Ctx := ⟨cfg, (p2BuildHeader input_header cfg.TARGET_CONTACTS).2.1,
    (p2BuildHeader input_header cfg.TARGET_CONTACTS).2.2,
    (p2BuildHeader input_header cfg.TARGET_CONTACTS).1, payload, jitter, ckOk, snOk⟩
  let st := p2_loop C 1 data_rows ⟨[], []⟩
  let H2 := ensure_phone_cols C.H 1
  ⟨st.processed, H2, st.processed,
    st.events ++ [Ev.output H2 st.processed, Ev.finalSnapshot H2 st.processed finOk]⟩

/-! ## Predicates used by the theorem statements -/

/-- A field is present in the sense of the specification: not `None`
and not the empty string. -/
def isPresentS (o : Option String) : Prop := ∃ s, o = some s ∧ s ≠ ""

/-- Every row of the table has exactly the header's width. -/
def rowsMatchHeader (hdr : List String) (rows : List (List String)) : Bool :=
  rows.all (fun r => r.length == hdr.length)

/-- The header carries the phone family up to width `m`: the base
column, and the suffixed columns for slots `2 .. m`. -/
def hasPhoneFamily (hdr : List String) (m : Nat) : Bool :=
  hdr.contains OUT_COL_PHONE
    && (List.range' 2 (m - 1)).all (fun k => hdr.contains (phoneColName k))

/-- Forget the success flags of best-effort writes (used to compare
event traces across different write-failure oracles). -/
def evScrub : Ev → Ev
  | .checkpoint i _ => .checkpoint i true
  | .snapshot i h r _ => .snapshot i h r true
  | .output h r => .output h r
  | .finalSnapshot h r _ => .finalSnapshot h r true

/-- Is this event a write to the partial-snapshot path? -/
def isPartialWrite : Ev → Bool
  | .snapshot _ _ _ _ => true
  | .finalSnapshot _ _ _ => true
  | _ => false

/-- The periodic snapshot contents after row `k` of a Phase 1 run. -/
def p1SnapshotAt (cfg : P1Config) (input_header : List String)
    (data_rows : List (List String)) (call : Nat → Nat → Option CompanyInfo)
    (jitter : Nat → Nat → ℚ → ℚ) (ckOk snOk : Nat → Bool) (k : Nat) :
    List String × List (List String) :=
  write_partial_snapshot (p1Ctx cfg input_header call jitter ckOk snOk).H
    (p1_state_after (p1Ctx cfg input_header call jitter ckOk snOk) data_rows k).processed
    (p1_state_after (p1Ctx cfg input_header call jitter ckOk snOk) data_rows k).phones

/-! # Theorems -/

lemma optTruthy_iff (o : Option String) : optTruthy o = true ↔ ∃ s, o = some s ∧ s ≠ "" := by
  cases o <;> simp [optTruthy]

lemma getDList_ne_nil_iff (o : Option (List String)) :
    o.getD [] ≠ [] ↔ ∃ l, o = some l ∧ l ≠ [] := by
  cases o <;> simp

/-- C3: the Phase 1 success predicate `attempt_has_core` holds exactly when
the enrichment result is present and has (website and email), or a non-empty
phone-number list, or (company name and gov.uk URL); a `None` result or one
satisfying none of the three disjuncts is a failed attempt. -/
theorem c3_attempt_has_core_iff (info : Option CompanyInfo) :
    attempt_has_core info = true ↔
      ∃ i, info = some i ∧
        ((isPresentS i.website ∧ isPresentS i.email) ∨
         (∃ l, i.numbers = some l ∧ l ≠ []) ∨
         (isPresentS i.company_name ∧ isPresentS i.govuk_url)) := by
  cases info with
  | none => simp [attempt_has_core]
  | some i =>
    simp only [attempt_has_core, Bool.or_eq_true, Bool.and_eq_true, optTruthy_iff,
      decide_eq_true_eq, isPresentS, getDList_ne_nil_iff]
    constructor
    · intro h
      exact ⟨i, rfl, or_assoc.mp h⟩
    · rintro ⟨j, hj, h⟩
      cases hj
      exact or_assoc.mpr h

lemma mem_dedupFirst (b : String) : ∀ l, b ∈ dedupFirst l ↔ b ∈ l := by
  intro l
  induction l using dedupFirst.induct with
  | case1 => simp [dedupFirst]
  | case2 x xs ih =>
    rw [dedupFirst, List.mem_cons, List.mem_cons, ih, List.mem_filter]
    constructor
    · rintro (rfl | ⟨h, _⟩)
      · exact Or.inl rfl
      · exact Or.inr h
    · rintro (rfl | h)
      · exact Or.inl rfl
      · by_cases hbx : b = x
        · exact Or.inl hbx
        · exact Or.inr ⟨h, by simp [hbx]⟩

lemma dedupeGo_eq : ∀ (xs seen : List String),
    dedupeGo seen xs = dedupFirst (xs.filter (fun y => decide (y ≠ "" ∧ y ∉ seen))) := by
  intro xs
  induction xs with
  | nil => intro seen; simp [dedupeGo, dedupFirst]
  | cons x xs ih =>
    intro seen
    by_cases hx : x = ""
    · have h1 : dedupeGo seen (x :: xs) = dedupeGo seen xs := by simp [dedupeGo, hx]
      have h2 : (x :: xs).filter (fun y => decide (y ≠ "" ∧ y ∉ seen))
          = xs.filter (fun y => decide (y ≠ "" ∧ y ∉ seen)) := by simp [hx]
      rw [h1, h2, ih]
    · by_cases hm : x ∈ seen
      · have h1 : dedupeGo seen (x :: xs) = dedupeGo seen xs := by simp [dedupeGo, hx, hm]
        have h2 : (x :: xs).filter (fun y => decide (y ≠ "" ∧ y ∉ seen))
            = xs.filter (fun y => decide (y ≠ "" ∧ y ∉ seen)) := by simp [hx, hm]
        rw [h1, h2, ih]
      · have h1 : dedupeGo seen (x :: xs) = x :: dedupeGo (x :: seen) xs := by
          simp [dedupeGo, hx, hm]
        have h2 : (x :: xs).filter (fun y => decide (y ≠ "" ∧ y ∉ seen))
            = x :: xs.filter (fun y => decide (y ≠ "" ∧ y ∉ seen)) := by simp [hx, hm]
        rw [h1, h2, dedupFirst, ih]
        congr 1
        have h3 : (xs.filter (fun y => decide (y ≠ "" ∧ y ∉ seen))).filter
              (fun y => decide (y ≠ x))
            = xs.filter (fun y => decide (y ≠ "" ∧ y ∉ x :: seen)) := by
          rw [List.filter_filter]
          apply List.filter_congr
          intro a _
          by_cases ha : a = "" <;> by_cases hax : a = x <;> by_cases has : a ∈ seen <;>
            simp [ha, hax, has]
        rw [h3]

lemma dedupe_keep_order_eq (l : List String) :
    dedupe_keep_order l = dedupFirst (l.filter (fun y => decide (y ≠ ""))) := by
  rw [dedupe_keep_order, dedupeGo_eq]
  congr 1
  apply List.filter_congr
  intro a _
  simp

/-- C7: what the merged phone list actually contains.  The claim's
"at least 7 digits after stripping" is corrected to "length at least 7 after
stripping", counting the kept plus signs as well (see the counterexample,
a string of length 12 with only 6 digits that is kept): the list equals the
first-occurrence de-duplication of the cleaned numbers of length at least 7,
and a string is in it iff it is the cleaning of some input number and has
length at least 7. -/
theorem c7_phone_filter (numbers : List String) :
    phase1_clean_numbers numbers
        = dedupFirst ((numbers.map clean_phone).filter (fun n => 7 ≤ n.length)) ∧
    ∀ m, m ∈ phase1_clean_numbers numbers ↔
        ∃ n ∈ numbers, m = clean_phone n ∧ 7 ≤ m.length := by
  have key : phase1_clean_numbers numbers
      = dedupFirst ((numbers.map clean_phone).filter (fun n => 7 ≤ n.length)) := by
    rw [phase1_clean_numbers, dedupe_keep_order_eq, List.filter_filter]
    congr 1
    apply List.filter_congr
    intro a _
    by_cases h7 : 7 ≤ a.length
    · have : a ≠ "" := by
        intro h
        rw [h] at h7
        simp at h7
      simp [h7, this]
    · simp [h7]
  refine ⟨key, ?_⟩
  intro m
  rw [key, mem_dedupFirst, List.mem_filter]
  simp only [List.mem_map, decide_eq_true_eq]
  constructor
  · rintro ⟨⟨n, hn, rfl⟩, h7⟩; exact ⟨n, hn, rfl, h7⟩
  · rintro ⟨n, hn, rfl, h7⟩; exact ⟨⟨n, hn, rfl⟩, h7⟩

/-- C7 counterexample: `"+1+2+3+4+5+6"` cleans to itself (length 12) and is
kept by the filter although it has only 6 digits, refuting the "at least 7
digits" reading of the claim. -/
theorem c7_counterexample :
    phase1_clean_numbers ["+1+2+3+4+5+6"] = ["+1+2+3+4+5+6"] ∧
    countDigits "+1+2+3+4+5+6" = 6 := ⟨rfl, rfl⟩

/-- C6: which parts of the detected dialect the writer reuses.  The claim
is corrected: `write_rows` reuses only the detected delimiter, hard-coding
the quote character `"` and the line terminator LF, so its output equals the
spec-described writer only on a dialect whose quote character and terminator
are those constants; in particular the output depends on the detected dialect
only through its delimiter. -/
theorem c6_write_dialect_use (dl : Dialect) (header : List String) (rows : List (List String)) :
    write_rows_content dl header rows
        = write_rows_spec ⟨dl.delimiter, '"', ['\n']⟩ header rows ∧
    ∀ dl₂ : Dialect, dl₂.delimiter = dl.delimiter →
      write_rows_content dl₂ header rows = write_rows_content dl header rows := by
  refine ⟨rfl, ?_⟩
  intro dl₂ h
  simp [write_rows_content, h]

/-- C6 counterexample: for a detected dialect with quote character `#` and
CRLF terminator, the file `write_rows` produces differs from the one the
spec describes (same-dialect reuse), refuting the claim as stated. -/
theorem c6_counterexample :
    write_rows_content ⟨',', '#', ['\r', '\n']⟩ ["a\"b"] []
      ≠ write_rows_spec ⟨',', '#', ['\r', '\n']⟩ ["a\"b"] [] := by decide

/-- Witness for the C6 theorem at a concrete pair of dialects sharing a
delimiter. -/
theorem c6_witness :
    write_rows_content ⟨',', '#', ['\r', '\n']⟩ ["a"] []
      = write_rows_content ⟨',', '"', ['\n']⟩ ["a"] [] :=
  (c6_write_dialect_use ⟨',', '"', ['\n']⟩ ["a"] []).2 ⟨',', '#', ['\r', '\n']⟩ rfl



lemma min_min_same (a x : ℚ) : min a (min a x) = min a x := by
  rw [← min_assoc, min_self]

section RetryLemmas
variable {α : Type} (call : Nat → α) (succ : α → Bool) (jitter : Nat → ℚ → ℚ) (maxS base : ℚ)

lemma retryGo_succ_eq (t rem : Nat) (s : ℚ) (last : α) (h : succ (call t) = true) :
    retryGo call succ jitter maxS base t (rem + 1) s last = ⟨call t, t, [t], []⟩ := by
  simp [retryGo, h]

lemma retryGo_fail_one (t : Nat) (s : ℚ) (last : α) (h : succ (call t) = false) :
    retryGo call succ jitter maxS base t 1 s last
      = ⟨call t, t, [t], [min maxS (s + jitter t s)]⟩ := by
  simp [retryGo, h]

lemma retryGo_fail_step (t rem : Nat) (s : ℚ) (last : α) (h : succ (call t) = false)
    (h0 : rem ≠ 0) :
    retryGo call succ jitter maxS base t (rem + 1) s last
      = { result := (retryGo call succ jitter maxS base (t + 1) rem
            (min maxS (s * base)) (call t)).result,
          lastAttempt := (retryGo call succ jitter maxS base (t + 1) rem
            (min maxS (s * base)) (call t)).lastAttempt,
          calls := t :: (retryGo call succ jitter maxS base (t + 1) rem
            (min maxS (s * base)) (call t)).calls,
          sleeps := min maxS (s + jitter t s) :: (retryGo call succ jitter maxS base (t + 1)
            rem (min maxS (s * base)) (call t)).sleeps } := by
  simp [retryGo, h, h0]

lemma retryGo_spec (hmax : 0 ≤ maxS) (hbase : (7 : ℚ)/5 ≤ base)
    (hjit : ∀ t s, 0 ≤ s → 0 ≤ jitter t s ∧ jitter t s ≤ (2 : ℚ)/5 * s) :
    ∀ (rem t : Nat) (s : ℚ) (last : α), 0 ≤ s →
      (retryGo call succ jitter maxS base t rem s last).calls.length ≤ rem ∧
      (retryGo call succ jitter maxS base t rem s last).sleeps.length
        = ((retryGo call succ jitter maxS base t rem s last).calls.filter
            (fun u => !succ (call u))).length ∧
      List.Chain' (· ≤ ·) (retryGo call succ jitter maxS base t rem s last).sleeps ∧
      (∀ x ∈ (retryGo call succ jitter maxS base t rem s last).sleeps, x ≤ maxS) ∧
      (∀ y ∈ (retryGo call succ jitter maxS base t rem s last).sleeps.head?,
        min maxS s ≤ y) := by
  intro rem
  induction rem using Nat.strong_induction_on with
  | _ rem ih =>
    intro t s last hs
    match rem with
    | 0 => simp [retryGo]
    | (rem' + 1) =>
      by_cases hsucc : succ (call t) = true
      · rw [retryGo_succ_eq call succ jitter maxS base t rem' s last hsucc]
        simp [hsucc]
      · have hsF : succ (call t) = false := by simpa using hsucc
        by_cases h0 : rem' = 0
        · subst h0
          rw [retryGo_fail_one call succ jitter maxS base t s last hsF]
          refine ⟨by simp, by simp [hsF], by simp, ?_, ?_⟩
          · intro x hx
            simp only [List.mem_singleton] at hx
            subst hx
            exact min_le_left _ _
          · intro y hy
            simp only [List.head?_cons, Option.mem_def, Option.some.injEq] at hy
            subst hy
            exact min_le_min le_rfl (le_add_of_nonneg_right (hjit t s hs).1)
        · rw [retryGo_fail_step call succ jitter maxS base t rem' s last hsF h0]
          have hs' : (0 : ℚ) ≤ min maxS (s * base) :=
            le_min hmax (mul_nonneg hs (le_trans (by norm_num) hbase))
          have IH := ih rem' (by omega) (t + 1) (min maxS (s * base)) (call t) hs'
          have hsleep_le : min maxS (s + jitter t s) ≤ min maxS (s * base) := by
            have h75 : (7 : ℚ)/5 * s ≤ s * base := by
              rw [mul_comm s base]
              exact mul_le_mul_of_nonneg_right hbase hs
            exact min_le_min le_rfl (by linarith [(hjit t s hs).2])
          refine ⟨?_, ?_, ?_, ?_, ?_⟩
          · simpa using Nat.succ_le_succ IH.1
          · simp only [List.length_cons, List.filter_cons, hsF]
            simp [IH.2.1]
          · rw [List.chain'_cons']
            refine ⟨?_, IH.2.2.1⟩
            intro y hy
            have hh := IH.2.2.2.2 y hy
            rw [min_min_same] at hh
            exact le_trans hsleep_le hh
          · intro x hx
            rcases List.mem_cons.mp hx with rfl | hx
            · exact min_le_left _ _
            · exact IH.2.2.2.1 x hx
          · intro y hy
            simp only [List.head?_cons, Option.mem_def, Option.some.injEq] at hy
            subst hy
            exact min_le_min le_rfl (le_add_of_nonneg_right (hjit t s hs).1)

end RetryLemmas


/-- C2: retry-loop bounds for both phases.  The call count is at most
`retries` and the sleep sequence is non-decreasing and capped at `max_sleep`,
as claimed; but the claim's "a sleep occurs only when attempts remain" is
corrected: the loop sleeps after every failed attempt, including the final
one (see the counterexample), so the number of sleeps equals the number of
failed calls. -/
theorem c2_retry_bounds
    (callC : Nat → Option CompanyInfo) (callK : Nat → List Contact)
    (jitC jitK : Nat → ℚ → ℚ) (maxS base startS : ℚ) (retries : Nat)
    (hmax : 0 ≤ maxS) (hbase : (7 : ℚ)/5 ≤ base) (hstart : 0 ≤ startS)
    (hjitC : ∀ t s, 0 ≤ s → 0 ≤ jitC t s ∧ jitC t s ≤ (2 : ℚ)/5 * s)
    (hjitK : ∀ t s, 0 ≤ s → 0 ≤ jitK t s ∧ jitK t s ≤ (2 : ℚ)/5 * s) :
    ((p1_retry callC jitC maxS base startS retries).calls.length ≤ retries ∧
     (p1_retry callC jitC maxS base startS retries).sleeps.length
       = ((p1_retry callC jitC maxS base startS retries).calls.filter
           (fun u => !attempt_has_core (callC u))).length ∧
     List.Chain' (· ≤ ·) (p1_retry callC jitC maxS base startS retries).sleeps ∧
     (∀ x ∈ (p1_retry callC jitC maxS base startS retries).sleeps, x ≤ maxS)) ∧
    ((p2_retry callK jitK maxS base startS retries).calls.length ≤ retries ∧
     (p2_retry callK jitK maxS base startS retries).sleeps.length
       = ((p2_retry callK jitK maxS base startS retries).calls.filter
           (fun u => !(!(callK u).isEmpty))).length ∧
     List.Chain' (· ≤ ·) (p2_retry callK jitK maxS base startS retries).sleeps ∧
     (∀ x ∈ (p2_retry callK jitK maxS base startS retries).sleeps, x ≤ maxS)) := by
  have h1 := retryGo_spec callC attempt_has_core jitC maxS base hmax hbase hjitC retries 1
    startS none hstart
  have h2 := retryGo_spec callK (fun cs => !cs.isEmpty) jitK maxS base hmax hbase hjitK retries 1
    startS [] hstart
  exact ⟨⟨h1.1, h1.2.1, h1.2.2.1, h1.2.2.2.1⟩, ⟨h2.1, h2.2.1, h2.2.2.1, h2.2.2.2.1⟩⟩

/-- C2 counterexample: with a single allowed attempt that fails, the loop
still sleeps once — after the final attempt — refuting the "never after the
final attempt" part of the claim. -/
theorem c2_counterexample :
    (p1_retry (fun _ => none) (fun _ _ => 0) 12 (9/5) 1 1).sleeps = [1] ∧
    (p1_retry (fun _ => none) (fun _ _ => 0) 12 (9/5) 1 1).calls = [1] ∧
    (p1_retry (fun _ => none) (fun _ _ => 0) 12 (9/5) 1 1).lastAttempt = 1 := by
  refine ⟨?_, rfl, rfl⟩
  norm_num [p1_retry, retryGo, attempt_has_core]

/-- Witness for the C2 theorem at concrete retry parameters. -/
theorem c2_witness :
    (p1_retry (fun _ => none) (fun _ _ => 0) 12 (9/5) 1 3).calls.length ≤ 3 ∧
    (p2_retry (fun _ => []) (fun _ _ => 0) 12 (9/5) 1 3).calls.length ≤ 3 := by
  have h := c2_retry_bounds (fun _ => none) (fun _ => []) (fun _ _ => 0) (fun _ _ => 0)
    12 (9/5) 1 3 (by norm_num) (by norm_num) (by norm_num)
    (fun t s hs => ⟨le_refl 0, by positivity⟩) (fun t s hs => ⟨le_refl 0, by positivity⟩)
  exact ⟨h.1.1, h.2.1⟩



/-! ### Cell-preservation lemmas -/

lemma lt_length_of_getD_ne {row : List String} {j : Nat} (h : row.getD j "" ≠ "") :
    j < row.length := by
  by_contra hj
  exact h (List.getD_eq_default _ _ (le_of_not_lt hj))

lemma getD_set_of_ne (row : List String) {i j : Nat} (v : String) (hij : i ≠ j) :
    (row.set i v).getD j "" = row.getD j "" := by
  rw [List.getD_eq_getElem?_getD, List.getElem?_set_ne hij, ← List.getD_eq_getElem?_getD]

lemma getD_setOrKeep (row : List String) (i : Nat) (v : String) {j : Nat}
    (h : row.getD j "" ≠ "") :
    (setOrKeep row i v).getD j "" = row.getD j "" := by
  by_cases hij : i = j
  · subst hij
    have hi : i < row.length := lt_length_of_getD_ne h
    rw [setOrKeep, pyOr, if_neg h, List.getD_eq_getElem?_getD,
      List.getElem?_set_eq_of_lt _ hi]
    rfl
  · exact getD_set_of_ne _ _ hij

lemma getD_setOrKeepIf (g : Bool) (row : List String) (i : Nat) (v : String) {j : Nat}
    (h : row.getD j "" ≠ "") :
    (setOrKeepIf g row i v).getD j "" = row.getD j "" := by
  rw [setOrKeepIf]
  split
  · exact getD_setOrKeep row i v h
  · rfl

lemma getD_setConf (o : Option ℚ) (row : List String) (i : Nat) {j : Nat}
    (h : row.getD j "" ≠ "") :
    (setConf o row i).getD j "" = row.getD j "" := by
  rcases o with _ | c
  · rfl
  · rw [setConf]
    split
    · by_cases hij : i = j
      · subst hij
        rename_i hempty
        exact absurd hempty h
      · exact getD_set_of_ne _ _ hij
    · rfl

lemma getD_p1_merge (ix : P1Idx) (retries attempt : Nat) (address postcode : String)
    (info : CompanyInfo) (row : List String) {j : Nat} (hj : j ≠ ix.notesIdx)
    (h : row.getD j "" ≠ "") :
    (p1_merge ix retries attempt address postcode info row).getD j "" = row.getD j "" := by
  rw [p1_merge]
  have e1 := getD_setOrKeep row ix.address (pyOr address "") h
  set r1 := setOrKeep row ix.address (pyOr address "") with hr1
  have n1 : r1.getD j "" ≠ "" := e1 ▸ h
  have e2 := getD_setOrKeep r1 ix.pc (pyOr (info.post_code.getD "") (pyOr postcode "")) n1
  set r2 := setOrKeep r1 ix.pc (pyOr (info.post_code.getD "") (pyOr postcode "")) with hr2
  have n2 : r2.getD j "" ≠ "" := e2 ▸ n1
  have e3 := getD_setOrKeepIf (optTruthy info.company_name) r2 ix.name
    (pyStrip (info.company_name.getD "")) n2
  set r3 := setOrKeepIf (optTruthy info.company_name) r2 ix.name
    (pyStrip (info.company_name.getD "")) with hr3
  have n3 : r3.getD j "" ≠ "" := e3 ▸ n2
  have e4 := getD_setOrKeepIf (optTruthy info.website) r3 ix.site
    (pyStrip (info.website.getD "")) n3
  set r4 := setOrKeepIf (optTruthy info.website) r3 ix.site
    (pyStrip (info.website.getD "")) with hr4
  have n4 : r4.getD j "" ≠ "" := e4 ▸ n3
  have e5 := getD_setOrKeepIf (optTruthy info.email) r4 ix.email
    (pyLower (pyStrip (info.email.getD ""))) n4
  set r5 := setOrKeepIf (optTruthy info.email) r4 ix.email
    (pyLower (pyStrip (info.email.getD ""))) with hr5
  have n5 : r5.getD j "" ≠ "" := e5 ▸ n4
  have e6 := getD_setOrKeepIf (optTruthy info.govuk_url) r5 ix.govuk
    (pyStrip (info.govuk_url.getD "")) n5
  set r6 := setOrKeepIf (optTruthy info.govuk_url) r5 ix.govuk
    (pyStrip (info.govuk_url.getD "")) with hr6
  have n6 : r6.getD j "" ≠ "" := e6 ▸ n5
  have e7 := getD_setOrKeepIf (optTruthy info.source_url) r6 ix.src
    (pyStrip (info.source_url.getD "")) n6
  set r7 := setOrKeepIf (optTruthy info.source_url) r6 ix.src
    (pyStrip (info.source_url.getD "")) with hr7
  have n7 : r7.getD j "" ≠ "" := e7 ▸ n6
  have e8 := getD_setConf info.confidence r7 ix.conf n7
  set r8 := setConf info.confidence r7 ix.conf with hr8
  have n8 : r8.getD j "" ≠ "" := e8 ▸ n7
  rw [getD_set_of_ne _ _ (Ne.symm hj), e8, e7, e6, e5, e4, e3, e2, e1]



/-! ### Header-extension lemmas -/

lemma ensureCol_length_le (h : List String) (n : String) :
    h.length ≤ (ensureCol h n).length := by
  rw [ensureCol]
  split
  · exact le_rfl
  · simp

lemma ensureCol_getD_of_lt (h : List String) (n : String) {j : Nat} (hj : j < h.length) :
    (ensureCol h n).getD j "" = h.getD j "" := by
  rw [ensureCol]
  split
  · rfl
  · exact List.getD_append _ _ _ _ hj

lemma mem_ensureCol_self (h : List String) (n : String) : n ∈ ensureCol h n := by
  rw [ensureCol]
  split
  · assumption
  · simp

lemma mem_ensureCol_of_mem (h : List String) (n : String) {x : String} (hx : x ∈ h) :
    x ∈ ensureCol h n := by
  rw [ensureCol]
  split
  · exact hx
  · exact List.mem_append_left _ hx

lemma foldl_ensureCol_ext (ks : List Nat) : ∀ h : List String,
    h.length ≤ (ks.foldl (fun h k => ensureCol h (phoneColName k)) h).length ∧
    (∀ j, j < h.length →
      (ks.foldl (fun h k => ensureCol h (phoneColName k)) h).getD j "" = h.getD j "") ∧
    (∀ x ∈ h, x ∈ ks.foldl (fun h k => ensureCol h (phoneColName k)) h) ∧
    (∀ k ∈ ks, phoneColName k ∈ ks.foldl (fun h k => ensureCol h (phoneColName k)) h) := by
  induction ks with
  | nil => intro h; simp
  | cons k ks ih =>
    intro h
    have base := ih (ensureCol h (phoneColName k))
    simp only [List.foldl_cons]
    refine ⟨le_trans (ensureCol_length_le h _) base.1, ?_, ?_, ?_⟩
    · intro j hj
      rw [base.2.1 j (lt_of_lt_of_le hj (ensureCol_length_le h _)), ensureCol_getD_of_lt h _ hj]
    · intro x hx
      exact base.2.2.1 x (mem_ensureCol_of_mem h _ hx)
    · intro k' hk'
      rcases List.mem_cons.mp hk' with rfl | hk'
      · exact base.2.2.1 _ (mem_ensureCol_self h _)
      · exact base.2.2.2 k' hk'

lemma ensure_phone_cols_ext (h : List String) (m : Nat) :
    h.length ≤ (ensure_phone_cols h m).length ∧
    (∀ j, j < h.length → (ensure_phone_cols h m).getD j "" = h.getD j "") ∧
    (∀ x ∈ h, x ∈ ensure_phone_cols h m) ∧
    OUT_COL_PHONE ∈ ensure_phone_cols h m ∧
    (∀ k, 2 ≤ k → k ≤ m → phoneColName k ∈ ensure_phone_cols h m) := by
  rw [ensure_phone_cols]
  have base := foldl_ensureCol_ext (List.range' 2 (m - 1)) (ensureCol h OUT_COL_PHONE)
  refine ⟨le_trans (ensureCol_length_le h _) base.1, ?_, ?_, ?_, ?_⟩
  · intro j hj
    rw [base.2.1 j (lt_of_lt_of_le hj (ensureCol_length_le h _)), ensureCol_getD_of_lt h _ hj]
  · intro x hx
    exact base.2.2.1 x (mem_ensureCol_of_mem h _ hx)
  · exact base.2.2.1 _ (mem_ensureCol_self h _)
  · intro k h2 hm
    refine base.2.2.2 k ?_
    rw [List.mem_range'_1]
    omega

/-! ### Row padding -/

lemma getD_replicate_empty (n j : Nat) : (List.replicate n ("" : String)).getD j "" = "" := by
  rw [List.getD_eq_getElem?_getD, List.getElem?_getD_replicate_default_eq]

lemma getD_padTo (row : List String) (n j : Nat) :
    (padTo row n).getD j "" = row.getD j "" := by
  rcases lt_or_le j row.length with h | h
  · rw [padTo, List.getD_append _ _ _ _ h]
  · rw [List.getD_eq_default _ _ h, padTo, List.getD_append_right _ _ _ _ h,
      getD_replicate_empty]

/-! ### fill_phone_cols never overwrites outside phone slots ≥ 2 -/

lemma fillPhoneGo_spec (baseIdx : Nat) : ∀ (vs : List String) (k : Nat)
    (row header : List String) (m : Nat),
    (header.length ≤ (fillPhoneGo baseIdx k vs row header m).2.1.length ∧
     (∀ j, j < header.length →
        (fillPhoneGo baseIdx k vs row header m).2.1.getD j "" = header.getD j "") ∧
     (∀ x ∈ header, x ∈ (fillPhoneGo baseIdx k vs row header m).2.1)) ∧
    (∀ j, row.getD j "" ≠ "" →
      (fillPhoneGo baseIdx k vs row header m).1.getD j "" = row.getD j "" ∨
      ∃ k', 2 ≤ k' ∧ (fillPhoneGo baseIdx k vs row header m).2.1.getD j "" = phoneColName k') := by
  intro vs
  induction vs with
  | nil =>
    intro k row header m
    constructor
    · exact ⟨le_rfl, fun j _ => rfl, fun x hx => hx⟩
    · intro j h
      exact Or.inl rfl
  | cons v vs ih =>
    intro k row header m
    by_cases hk : k = 0
    · subst hk
      simp only [fillPhoneGo, if_pos rfl]
      have IH := ih 1 (row.set baseIdx (pyOr (row.getD baseIdx "") v)) header m
      refine ⟨IH.1, ?_⟩
      intro j hne
      have hpres : (row.set baseIdx (pyOr (row.getD baseIdx "") v)).getD j "" = row.getD j "" :=
        getD_setOrKeep row baseIdx v hne
      have hne1 : (row.set baseIdx (pyOr (row.getD baseIdx "") v)).getD j "" ≠ "" :=
        hpres ▸ hne
      rcases IH.2 j hne1 with heq | hex
      · exact Or.inl (heq.trans hpres)
      · exact Or.inr hex
    · simp only [fillPhoneGo, if_neg hk]
      set col := phoneColName (k + 1) with hcol
      set header1 := ensureCol header col with hheader1
      set idx := header1.indexOf col with hidx
      have hmem : col ∈ header1 := mem_ensureCol_self header col
      have hlt : idx < header1.length := List.indexOf_lt_length.mpr hmem
      have hat : header1.getD idx "" = col := by
        rw [List.getD_eq_getElem _ _ hlt]
        exact List.getElem_indexOf hlt
      set row1 := (padTo row (idx + 1)).set idx v with hrow1
      have IH := ih (k + 1) row1 header1 (max m (k + 1))
      constructor
      · refine ⟨?_, ?_, ?_⟩
        · exact le_trans (ensureCol_length_le header col) IH.1.1
        · intro j hj
          rw [IH.1.2.1 j (lt_of_lt_of_le hj (ensureCol_length_le header col)),
            ensureCol_getD_of_lt header col hj]
        · intro x hx
          exact IH.1.2.2 x (mem_ensureCol_of_mem header col hx)
      · intro j hne
        by_cases hj : idx = j
        · subst hj
          refine Or.inr ⟨k + 1, by omega, ?_⟩
          rw [IH.1.2.1 idx hlt, hat]
        · have hpres : row1.getD j "" = row.getD j "" := by
            rw [hrow1, getD_set_of_ne _ _ hj, getD_padTo]
          have hne1 : row1.getD j "" ≠ "" := hpres ▸ hne
          rcases IH.2 j hne1 with heq | hex
          · exact Or.inl (heq.trans hpres)
          · exact Or.inr hex

lemma getD_fill_phone_cols (row header numbers : List String) {j : Nat}
    (h : row.getD j "" ≠ "") :
    (fill_phone_cols row header numbers).1.getD j "" = row.getD j "" ∨
    ∃ k, 2 ≤ k ∧ (fill_phone_cols row header numbers).2.getD j "" = phoneColName k := by
  rw [fill_phone_cols]
  have spec := fillPhoneGo_spec (header.indexOf OUT_COL_PHONE) numbers 0 row header 1
  rcases spec.2 j h with heq | ⟨k, hk2, hk⟩
  · exact Or.inl heq
  · refine Or.inr ⟨k, hk2, ?_⟩
    have hne : (fillPhoneGo (header.indexOf OUT_COL_PHONE) 0 numbers row header 1).2.1.getD j ""
        ≠ "" := by
      rw [hk]
      intro hcontr
      have : (phoneColName k).length = 0 := by rw [hcontr]; rfl
      rw [phoneColName] at this
      simp [OUT_COL_PHONE] at this
      exact absurd this.1 (by decide)
    have hjlt := lt_length_of_getD_ne hne
    have ext := ensure_phone_cols_ext
      (fillPhoneGo (header.indexOf OUT_COL_PHONE) 0 numbers row header 1).2.1
      (fillPhoneGo (header.indexOf OUT_COL_PHONE) 0 numbers row header 1).2.2
    rw [ext.2.1 j hjlt, hk]


/-- C1: where the merge step can and cannot overwrite.  The claim is
corrected: outside the notes column, `p1_merge` never changes a non-empty
cell; but the notes column is rewritten even when non-empty (the attempts
note is appended), and `fill_phone_cols` preserves a non-empty cell only in
the base slot, while the family slots 2 and up are assigned unconditionally
(see the counterexample). -/
theorem c1_no_overwrite :
    (∀ (ix : P1Idx) (retries attempt : Nat) (address postcode : String)
       (info : CompanyInfo) (row : List String) (j : Nat),
       j ≠ ix.notesIdx → row.getD j "" ≠ "" →
       (p1_merge ix retries attempt address postcode info row).getD j "" = row.getD j "") ∧
    (∀ (row header numbers : List String) (j : Nat), row.getD j "" ≠ "" →
       (fill_phone_cols row header numbers).1.getD j "" = row.getD j "" ∨
       ∃ k, 2 ≤ k ∧ (fill_phone_cols row header numbers).2.getD j "" = phoneColName k) :=
  ⟨fun ix r a ad pc info row _ hj h => getD_p1_merge ix r a ad pc info row hj h,
   fun row header numbers _ h => getD_fill_phone_cols row header numbers h⟩

/-- C1 counterexample: `fill_phone_cols` overwrites the non-empty second
slot `"OLD"` with `"2222222"`, and `p1_merge` rewrites a non-empty notes
cell `"keep"` to `"keep; Phase1 attempts: 1/5"`, refuting the unconditional
no-overwrite claim. -/
theorem c1_counterexample :
    (fill_phone_cols ["", "OLD"] [OUT_COL_PHONE, phoneColName 2] ["1111111", "2222222"]).1
      = ["1111111", "2222222"] ∧
    ("OLD" : String) ≠ "2222222" ∧
    (p1_merge ⟨0, 1, 2, 3, 4, 5, 6, 7, 8, 9⟩ 5 1 "" "" {}
        ["", "", "", "", "", "", "", "", "", "keep"]).getD 9 ""
      = "keep; Phase1 attempts: 1/5" ∧
    ("keep" : String) ≠ "keep; Phase1 attempts: 1/5" :=
  ⟨rfl, by decide, rfl, by decide⟩

/-- Witness for the C1 theorem at a concrete row and merge result. -/
theorem c1_witness :
    (p1_merge ⟨0, 1, 2, 3, 4, 5, 6, 7, 8, 9⟩ 5 1 "" "" {}
        ["X", "", "", "", "", "", "", "", "", ""]).getD 0 "" = "X" ∧
    (fill_phone_cols ["KEEP"] [OUT_COL_PHONE] ["1234567"]).1.getD 0 "" = "KEEP" := by
  constructor
  · exact c1_no_overwrite.1 ⟨0, 1, 2, 3, 4, 5, 6, 7, 8, 9⟩ 5 1 "" "" {}
      ["X", "", "", "", "", "", "", "", "", ""] 0 (by decide) (by decide)
  · rcases c1_no_overwrite.2 ["KEEP"] [OUT_COL_PHONE] ["1234567"] 0 (by decide) with h | ⟨k, hk2, hk⟩
    · exact h
    · exfalso
      rw [show (fill_phone_cols ["KEEP"] [OUT_COL_PHONE] ["1234567"]).2.getD 0 ""
          = "PHONE NUMBER" from rfl] at hk
      have hlen := congrArg String.length hk
      rw [phoneColName, String.length_append] at hlen
      have h1 : ("PHONE NUMBER" : String).length = 12 := rfl
      have h2 : (OUT_COL_PHONE ++ " ").length = 13 := rfl
      omega


/-! ### Best-effort writes do not influence the run (C9) -/

lemma p1RowEvents_scrub (cfg ix H call jitter ck1 sn1 ck2 sn2) (i : Nat)
    (p ph : List (List String)) :
    ((p1RowEvents ⟨cfg, ix, H, call, jitter, ck1, sn1⟩ i p ph).map evScrub)
      = ((p1RowEvents ⟨cfg, ix, H, call, jitter, ck2, sn2⟩ i p ph).map evScrub) := by
  rw [p1RowEvents, p1RowEvents]
  split <;> simp [p1SnapEv, evScrub]

lemma p1_step_indep (cfg ix H call jitter ck1 sn1 ck2 sn2)
    (st1 st2 : P1State) (i : Nat) (row : List String)
    (hp : st1.processed = st2.processed) (hph : st1.phones = st2.phones)
    (he : st1.events.map evScrub = st2.events.map evScrub) :
    (p1_step ⟨cfg, ix, H, call, jitter, ck1, sn1⟩ st1 i row).processed
      = (p1_step ⟨cfg, ix, H, call, jitter, ck2, sn2⟩ st2 i row).processed ∧
    (p1_step ⟨cfg, ix, H, call, jitter, ck1, sn1⟩ st1 i row).phones
      = (p1_step ⟨cfg, ix, H, call, jitter, ck2, sn2⟩ st2 i row).phones ∧
    (p1_step ⟨cfg, ix, H, call, jitter, ck1, sn1⟩ st1 i row).events.map evScrub
      = (p1_step ⟨cfg, ix, H, call, jitter, ck2, sn2⟩ st2 i row).events.map evScrub := by
  rw [p1_step, p1_step]
  split
  · refine ⟨by simp [hp], by simp [hph], ?_⟩
    simp only [List.map_append, he, hp, hph]
    rw [p1RowEvents_scrub cfg ix H call jitter ck1 sn1 ck2 sn2]
  · refine ⟨by simp [hp], by simp [hph], ?_⟩
    simp only [List.map_append, he, hp, hph]
    rw [p1RowEvents_scrub cfg ix H call jitter ck1 sn1 ck2 sn2]

lemma p1_loop_indep (cfg ix H call jitter ck1 sn1 ck2 sn2) :
    ∀ (rows : List (List String)) (i : Nat) (st1 st2 : P1State),
    st1.processed = st2.processed → st1.phones = st2.phones →
    st1.events.map evScrub = st2.events.map evScrub →
    (p1_loop ⟨cfg, ix, H, call, jitter, ck1, sn1⟩ i rows st1).processed
      = (p1_loop ⟨cfg, ix, H, call, jitter, ck2, sn2⟩ i rows st2).processed ∧
    (p1_loop ⟨cfg, ix, H, call, jitter, ck1, sn1⟩ i rows st1).phones
      = (p1_loop ⟨cfg, ix, H, call, jitter, ck2, sn2⟩ i rows st2).phones ∧
    (p1_loop ⟨cfg, ix, H, call, jitter, ck1, sn1⟩ i rows st1).events.map evScrub
      = (p1_loop ⟨cfg, ix, H, call, jitter, ck2, sn2⟩ i rows st2).events.map evScrub := by
  intro rows
  induction rows with
  | nil => intro i st1 st2 hp hph he; exact ⟨hp, hph, he⟩
  | cons r rs ih =>
    intro i st1 st2 hp hph he
    have hstep := p1_step_indep cfg ix H call jitter ck1 sn1 ck2 sn2 st1 st2 i r hp hph he
    exact ih (i + 1) _ _ hstep.1 hstep.2.1 hstep.2.2

lemma p2RowEvents_scrub (cfg ix cols H payload jitter ck1 sn1 ck2 sn2) (i : Nat)
    (p : List (List String)) :
    ((p2RowEvents ⟨cfg, ix, cols, H, payload, jitter, ck1, sn1⟩ i p).map evScrub)
      = ((p2RowEvents ⟨cfg, ix, cols, H, payload, jitter, ck2, sn2⟩ i p).map evScrub) := by
  rw [p2RowEvents, p2RowEvents]
  split <;> simp [evScrub]

lemma p2_step_indep (cfg ix cols H payload jitter ck1 sn1 ck2 sn2)
    (st1 st2 : P2State) (i : Nat) (row : List String)
    (hp : st1.processed = st2.processed)
    (he : st1.events.map evScrub = st2.events.map evScrub) :
    (p2_step ⟨cfg, ix, cols, H, payload, jitter, ck1, sn1⟩ st1 i row).processed
      = (p2_step ⟨cfg, ix, cols, H, payload, jitter, ck2, sn2⟩ st2 i row).processed ∧
    (p2_step ⟨cfg, ix, cols, H, payload, jitter, ck1, sn1⟩ st1 i row).events.map evScrub
      = (p2_step ⟨cfg, ix, cols, H, payload, jitter, ck2, sn2⟩ st2 i row).events.map evScrub := by
  rw [p2_step, p2_step]
  split
  · refine ⟨by simp [hp], ?_⟩
    simp only [List.map_append, he, hp]
    rw [p2RowEvents_scrub cfg ix cols H payload jitter ck1 sn1 ck2 sn2]
  · refine ⟨by simp [hp], ?_⟩
    simp only [List.map_append, he, hp]
    rw [p2RowEvents_scrub cfg ix cols H payload jitter ck1 sn1 ck2 sn2]

lemma p2_loop_indep (cfg ix cols H payload jitter ck1 sn1 ck2 sn2) :
    ∀ (rows : List (List String)) (i : Nat) (st1 st2 : P2State),
    st1.processed = st2.processed →
    st1.events.map evScrub = st2.events.map evScrub →
    (p2_loop ⟨cfg, ix, cols, H, payload, jitter, ck1, sn1⟩ i rows st1).processed
      = (p2_loop ⟨cfg, ix, cols, H, payload, jitter, ck2, sn2⟩ i rows st2).processed ∧
    (p2_loop ⟨cfg, ix, cols, H, payload, jitter, ck1, sn1⟩ i rows st1).events.map evScrub
      = (p2_loop ⟨cfg, ix, cols, H, payload, jitter, ck2, sn2⟩ i rows st2).events.map evScrub := by
  intro rows
  induction rows with
  | nil => intro i st1 st2 hp he; exact ⟨hp, he⟩
  | cons r rs ih =>
    intro i st1 st2 hp he
    have hstep := p2_step_indep cfg ix cols H payload jitter ck1 sn1 ck2 sn2 st1 st2 i r hp he
    exact ih (i + 1) _ _ hstep.1 hstep.2

/-- C9: checkpoint and snapshot writes are best-effort.  Whether the
per-row checkpoint append or the periodic snapshot write succeeds or fails
(the success oracles) changes neither the processed rows, nor the final
output, nor the sequence of attempted writes of either phase's run: failures
are swallowed and processing continues identically. -/
theorem c9_best_effort_writes
    (cfg : P1Config) (input_header : List String) (data_rows : List (List String))
    (call : Nat → Nat → Option CompanyInfo) (jitter : Nat → Nat → ℚ → ℚ)
    (ck1 sn1 ck2 sn2 : Nat → Bool)
    (cfg2 : P2Config) (input_header2 : List String) (data_rows2 : List (List String))
    (payload : Nat → Nat → Option (List ContactItem)) (jitter2 : Nat → Nat → ℚ → ℚ)
    (ck1' sn1' ck2' sn2' : Nat → Bool) (finOk1 finOk2 : Bool) :
    ((p1_run cfg input_header data_rows call jitter ck1 sn1).processed
       = (p1_run cfg input_header data_rows call jitter ck2 sn2).processed ∧
     (p1_run cfg input_header data_rows call jitter ck1 sn1).finalRows
       = (p1_run cfg input_header data_rows call jitter ck2 sn2).finalRows ∧
     (p1_run cfg input_header data_rows call jitter ck1 sn1).events.map evScrub
       = (p1_run cfg input_header data_rows call jitter ck2 sn2).events.map evScrub) ∧
    ((p2_run cfg2 input_header2 data_rows2 payload jitter2 ck1' sn1' finOk1).processed
       = (p2_run cfg2 input_header2 data_rows2 payload jitter2 ck2' sn2' finOk2).processed ∧
     (p2_run cfg2 input_header2 data_rows2 payload jitter2 ck1' sn1' finOk1).finalRows
       = (p2_run cfg2 input_header2 data_rows2 payload jitter2 ck2' sn2' finOk2).finalRows ∧
     (p2_run cfg2 input_header2 data_rows2 payload jitter2 ck1' sn1' finOk1).events.map evScrub
       = (p2_run cfg2 input_header2 data_rows2 payload jitter2 ck2' sn2' finOk2).events.map
           evScrub) := by
  constructor
  · have hloop := p1_loop_indep cfg (build_output_header input_header).2
      (build_output_header input_header).1 call jitter ck1 sn1 ck2 sn2 data_rows 1
      ⟨[], [], []⟩ ⟨[], [], []⟩ rfl rfl rfl
    simp only [p1_run, p1Ctx]
    refine ⟨hloop.1, ?_, ?_⟩
    · rw [hloop.1, hloop.2.1]
    · simp only [List.map_append, hloop.2.2, hloop.1, hloop.2.1]
  · have hloop := p2_loop_indep cfg2 (p2BuildHeader input_header2 cfg2.TARGET_CONTACTS).2.1
      (p2BuildHeader input_header2 cfg2.TARGET_CONTACTS).2.2
      (p2BuildHeader input_header2 cfg2.TARGET_CONTACTS).1 payload jitter2
      ck1' sn1' ck2' sn2' data_rows2 1 ⟨[], []⟩ ⟨[], []⟩ rfl rfl
    simp only [p2_run]
    refine ⟨hloop.1, hloop.1, ?_⟩
    simp only [List.map_append, hloop.2, hloop.1]
    simp [evScrub]



/-- C8: final snapshot on clean completion.  The claim is corrected: it
holds for Phase 2 only — after the final output event, a final snapshot
carrying exactly the completed output's header and rows is written to the
partial path; Phase 1 writes no such final mirror (see the counterexample,
a clean Phase 1 run that never writes the partial path at all). -/
theorem c8_final_snapshot_phase2
    (cfg : P2Config) (input_header : List String) (data_rows : List (List String))
    (payload : Nat → Nat → Option (List ContactItem)) (jitter : Nat → Nat → ℚ → ℚ)
    (ckOk snOk : Nat → Bool) (finOk : Bool) :
    ∃ pre,
      (p2_run cfg input_header data_rows payload jitter ckOk snOk finOk).events
        = pre
          ++ [Ev.output
                (p2_run cfg input_header data_rows payload jitter ckOk snOk finOk).finalHeader
                (p2_run cfg input_header data_rows payload jitter ckOk snOk finOk).finalRows,
              Ev.finalSnapshot
                (p2_run cfg input_header data_rows payload jitter ckOk snOk finOk).finalHeader
                (p2_run cfg input_header data_rows payload jitter ckOk snOk finOk).finalRows
                finOk] :=
  ⟨_, rfl⟩

/-- C8 counterexample: a clean one-row Phase 1 run never writes the
partial path at all. -/
theorem c8_counterexample :
    (p1_run ⟨20, 1, 9/5, 1, 12⟩ ["ADDRESS", "POSTCODE"] [["x", ""]]
        (fun _ _ => none) (fun _ _ _ => 0) (fun _ => true) (fun _ => true)).events.filter
        isPartialWrite = [] ∧
    (p1_run ⟨20, 1, 9/5, 1, 12⟩ ["ADDRESS", "POSTCODE"] [["x", ""]]
        (fun _ _ => none) (fun _ _ _ => 0) (fun _ => true) (fun _ => true)).finalRows
      = [["x", "", "", "", "", "", "", "", "", ""]] := by
  exact ⟨rfl, rfl⟩

/-! ### Phase 2 success predicate (C10) -/

lemma parseContactItem_eq_none_iff (it : ContactItem) :
    parseContactItem it = none ↔
      pyStrip (it.contact_name.getD "") = "" ∨ pyStrip (it.contact_title.getD "") = "" := by
  rw [parseContactItem]
  split
  · simp_all
  · simp_all

lemma retryGo_calls_head {α : Type} (call : Nat → α) (succ : α → Bool)
    (jitter : Nat → ℚ → ℚ) (maxS base : ℚ) (t rem : Nat) (s : ℚ) (last : α)
    (h0 : rem ≠ 0) :
    ∃ rest, (retryGo call succ jitter maxS base t rem s last).calls = t :: rest := by
  match rem with
  | 0 => exact absurd rfl h0
  | rem' + 1 =>
    by_cases hsucc : succ (call t) = true
    · rw [retryGo_succ_eq call succ jitter maxS base t rem' s last hsucc]
      exact ⟨[], rfl⟩
    · have hsF : succ (call t) = false := by simpa using hsucc
      by_cases h1 : rem' = 0
      · subst h1
        rw [retryGo_fail_one call succ jitter maxS base t s last hsF]
        exact ⟨[], rfl⟩
      · rw [retryGo_fail_step call succ jitter maxS base t rem' s last hsF h1]
        exact ⟨_, rfl⟩

/-- C10: Phase 2 success is a non-empty parsed contact list.  Parsing
discards every contact item whose name or title is missing or blank after
stripping, so the parsed list is empty exactly when every item of the
payload is name-less or title-less; a non-empty list on the first attempt
stops the retry loop at once, and an empty list with attempts remaining
leads to a second call. -/
theorem c10_contact_success (target : Nat) (htarget : 1 ≤ target) :
    (∀ payload : Option (List ContactItem),
      run_for_company_contacts target payload = [] ↔
        ∀ items, payload = some items → ∀ it ∈ items,
          pyStrip (it.contact_name.getD "") = "" ∨ pyStrip (it.contact_title.getD "") = "") ∧
    (∀ (call : Nat → List Contact) (jitter : Nat → ℚ → ℚ) (maxS base startS : ℚ)
       (retries : Nat), 1 ≤ retries → call 1 ≠ [] →
      (p2_retry call jitter maxS base startS retries).calls = [1] ∧
      (p2_retry call jitter maxS base startS retries).result = call 1) ∧
    (∀ (call : Nat → List Contact) (jitter : Nat → ℚ → ℚ) (maxS base startS : ℚ)
       (retries : Nat), 2 ≤ retries → call 1 = [] →
      2 ∈ (p2_retry call jitter maxS base startS retries).calls) := by
  refine ⟨?_, ?_, ?_⟩
  · intro payload
    rcases payload with _ | items
    · simp [run_for_company_contacts]
    · rw [run_for_company_contacts]
      constructor
      · intro h items' hitems'
        cases hitems'
        intro it hit
        rw [← parseContactItem_eq_none_iff]
        by_contra hne
        rcases Option.ne_none_iff_exists'.mp hne with ⟨c, hc⟩
        have hmem : c ∈ items.filterMap parseContactItem :=
          List.mem_filterMap.mpr ⟨it, hit, hc⟩
        have : items.filterMap parseContactItem ≠ [] := by
          intro hnil
          rw [hnil] at hmem
          exact absurd hmem (List.not_mem_nil c)
        rcases List.exists_cons_of_ne_nil this with ⟨c0, cs, hcons⟩
        rw [hcons] at h
        have : target = 0 := by
          by_contra ht0
          rcases Nat.exists_eq_succ_of_ne_zero ht0 with ⟨n, rfl⟩
          simp [List.take_succ_cons] at h
        omega
      · intro h
        have : items.filterMap parseContactItem = [] := by
          rw [List.filterMap_eq_nil_iff]
          intro it hit
          rw [parseContactItem_eq_none_iff]
          exact h items rfl it hit
        rw [this]
        simp
  · intro call jitter maxS base startS retries hret hne
    have hsucc : (fun cs : List Contact => !cs.isEmpty) (call 1) = true := by
      simp [List.isEmpty_iff, hne]
    rcases Nat.exists_eq_succ_of_ne_zero (by omega : retries ≠ 0) with ⟨n, rfl⟩
    rw [p2_retry, retryGo_succ_eq call (fun cs => !cs.isEmpty) jitter maxS base 1 n startS []
      hsucc]
    exact ⟨rfl, rfl⟩
  · intro call jitter maxS base startS retries hret hempty
    have hsF : (fun cs : List Contact => !cs.isEmpty) (call 1) = false := by
      simp [hempty]
    rcases Nat.exists_eq_succ_of_ne_zero (by omega : retries - 1 ≠ 0) with ⟨n, hn⟩
    have hretries : retries = (n + 1) + 1 := by omega
    rw [p2_retry, hretries, retryGo_fail_step call (fun cs => !cs.isEmpty) jitter maxS base 1
      (n + 1) startS [] hsF (by omega)]
    rcases retryGo_calls_head call (fun cs => !cs.isEmpty) jitter maxS base 2 (n + 1)
      (min maxS (startS * base)) (call 1) (by omega) with ⟨rest, hrest⟩
    simp only [hrest]
    simp

/-- Witness for the C10 theorem at a concrete target and payloads. -/
theorem c10_witness :
    run_for_company_contacts 1 (some [{ contact_name := some "Jo" }]) = [] ∧
    2 ∈ (p2_retry (fun _ => []) (fun _ _ => 0) 12 (9/5) 1 2).calls := by
  constructor
  · exact (c10_contact_success 1 (by norm_num)).1 (some [{ contact_name := some "Jo" }])
      |>.mpr (by intro items h it hit; cases h; simp at hit; subst hit; right; rfl)
  · exact (c10_contact_success 1 (by norm_num)).2.2 (fun _ => []) (fun _ _ => 0) 12 (9/5) 1 2
      (by norm_num) rfl


/-! ### C4 support: lengths and header stability -/

lemma length_setOrKeep (row : List String) (i : Nat) (v : String) :
    (setOrKeep row i v).length = row.length := by
  rw [setOrKeep, List.length_set]

lemma length_setOrKeepIf (g : Bool) (row : List String) (i : Nat) (v : String) :
    (setOrKeepIf g row i v).length = row.length := by
  rw [setOrKeepIf]
  split
  · exact length_setOrKeep row i v
  · rfl

lemma length_setConf (o : Option ℚ) (row : List String) (i : Nat) :
    (setConf o row i).length = row.length := by
  rcases o with _ | c
  · rfl
  · rw [setConf]
    split
    · exact List.length_set _ _ _
    · rfl

lemma length_p1_merge (ix : P1Idx) (retries attempt : Nat) (address postcode : String)
    (info : CompanyInfo) (row : List String) :
    (p1_merge ix retries attempt address postcode info row).length = row.length := by
  rw [p1_merge, List.length_set, length_setConf, length_setOrKeepIf, length_setOrKeepIf,
    length_setOrKeepIf, length_setOrKeepIf, length_setOrKeepIf, length_setOrKeep,
    length_setOrKeep]

lemma length_padTo (row : List String) (n : Nat) :
    (padTo row n).length = max row.length n := by
  rw [padTo, List.length_append, List.length_replicate]
  omega

lemma ensureCol_of_mem (h : List String) (n : String) (hn : n ∈ h) : ensureCol h n = h := by
  rw [ensureCol, if_pos hn]

lemma ensure_phone_cols_stable (h : List String) (m : Nat)
    (hbase : OUT_COL_PHONE ∈ h) (hcols : ∀ j, 2 ≤ j → j ≤ m → phoneColName j ∈ h) :
    ensure_phone_cols h m = h := by
  rw [ensure_phone_cols, ensureCol_of_mem h _ hbase]
  have : ∀ ks : List Nat, (∀ j ∈ ks, phoneColName j ∈ h) →
      ks.foldl (fun h k => ensureCol h (phoneColName k)) h = h := by
    intro ks
    induction ks with
    | nil => intro _; rfl
    | cons k ks ih =>
      intro hk
      simp only [List.foldl_cons]
      rw [ensureCol_of_mem h _ (hk k (List.mem_cons_self k ks))]
      exact ih (fun j hj => hk j (List.mem_cons_of_mem k hj))
  refine this _ ?_
  intro j hj
  rw [List.mem_range'_1] at hj
  exact hcols j hj.1 (by omega)

lemma fillPhoneGo_stable (baseIdx : Nat) : ∀ (vs : List String) (k : Nat)
    (row header : List String) (m : Nat),
    (∀ j, 2 ≤ j → j ≤ k + vs.length → phoneColName j ∈ header) →
    (fillPhoneGo baseIdx k vs row header m).2.1 = header ∧
    row.length ≤ (fillPhoneGo baseIdx k vs row header m).1.length ∧
    (fillPhoneGo baseIdx k vs row header m).1.length ≤ max row.length header.length ∧
    (fillPhoneGo baseIdx k vs row header m).2.2 ≤ max m (k + vs.length) := by
  intro vs
  induction vs with
  | nil =>
    intro k row header m _
    refine ⟨rfl, ?_, ?_, ?_⟩ <;> simp [fillPhoneGo]
  | cons v vs ih =>
    intro k row header m hcols
    by_cases hk : k = 0
    · subst hk
      simp only [fillPhoneGo, if_pos rfl]
      have IH := ih 1 (row.set baseIdx (pyOr (row.getD baseIdx "") v)) header m
        (by intro j h2 hj; refine hcols j h2 ?_; simp only [List.length_cons]; omega)
      have hset : (row.set baseIdx (pyOr (row.getD baseIdx "") v)).length = row.length :=
        List.length_set _ _ _
      rw [hset] at IH
      refine ⟨IH.1, IH.2.1, IH.2.2.1, ?_⟩
      refine le_trans IH.2.2.2 ?_
      simp only [List.length_cons]
      omega
    · simp only [fillPhoneGo, if_neg hk]
      have hcol : phoneColName (k + 1) ∈ header := by
        refine hcols (k + 1) (by omega) (by simp only [List.length_cons]; omega)
      rw [ensureCol_of_mem header _ hcol]
      have hlt : header.indexOf (phoneColName (k + 1)) < header.length :=
        List.indexOf_lt_length.mpr hcol
      have IH := ih (k + 1) ((padTo row (header.indexOf (phoneColName (k + 1)) + 1)).set
        (header.indexOf (phoneColName (k + 1))) v) header (max m (k + 1))
        (by intro j h2 hj; refine hcols j h2 ?_; simp only [List.length_cons]; omega)
      have hset : ((padTo row (header.indexOf (phoneColName (k + 1)) + 1)).set
          (header.indexOf (phoneColName (k + 1))) v).length
          = max row.length (header.indexOf (phoneColName (k + 1)) + 1) := by
        rw [List.length_set, length_padTo]
      rw [hset] at IH
      refine ⟨IH.1, ?_, ?_, ?_⟩
      · refine le_trans ?_ IH.2.1
        omega
      · refine le_trans IH.2.2.1 ?_
        omega
      · refine le_trans IH.2.2.2 ?_
        simp only [List.length_cons]
        omega

lemma fill_phone_cols_stable (r h ns : List String)
    (hbase : OUT_COL_PHONE ∈ h)
    (hcols : ∀ j, 2 ≤ j → j ≤ ns.length → phoneColName j ∈ h) :
    (fill_phone_cols r h ns).2 = h ∧
    r.length ≤ (fill_phone_cols r h ns).1.length ∧
    (fill_phone_cols r h ns).1.length ≤ max r.length h.length := by
  rw [fill_phone_cols]
  have spec := fillPhoneGo_stable (h.indexOf OUT_COL_PHONE) ns 0 r h 1
    (by intro j h2 hj; exact hcols j h2 (by omega))
  refine ⟨?_, spec.2.1, spec.2.2.1⟩
  rw [spec.1]
  refine ensure_phone_cols_stable h _ hbase ?_
  intro j h2 hj
  exact hcols j h2 (le_trans hj (le_trans spec.2.2.2 (by omega)))

lemma le_maxPhonesOf : ∀ (pls : List (List String)) (ns : List String), ns ∈ pls →
    ns.length ≤ maxPhonesOf pls := by
  intro pls
  induction pls with
  | nil => intro ns h; cases h
  | cons p ps ih =>
    intro ns h
    rcases List.mem_cons.mp h with rfl | h
    · rw [maxPhonesOf]
      simp only [List.map_cons, List.foldr_cons]
      omega
    · have := ih ns h
      rw [maxPhonesOf] at this ⊢
      simp only [List.map_cons, List.foldr_cons]
      omega

lemma fillAll_stable (h : List String)
    (hbase : OUT_COL_PHONE ∈ h) :
    ∀ (rows pls : List (List String)),
    (∀ ns ∈ pls, ∀ j, 2 ≤ j → j ≤ ns.length → phoneColName j ∈ h) →
    (∀ r ∈ rows, r.length = h.length) →
    (fillAll h rows pls).1 = h ∧
    (fillAll h rows pls).2.length = rows.length ∧
    (∀ r ∈ (fillAll h rows pls).2, r.length = h.length) := by
  intro rows
  induction rows with
  | nil =>
    intro pls _ _
    have e : fillAll h [] pls = (h, []) := by simp [fillAll]
    refine ⟨by rw [e], by rw [e], ?_⟩
    intro r hr
    rw [e] at hr
    cases hr
  | cons r rs ih =>
    intro pls hcols hlen
    rcases pls with _ | ⟨ns, nss⟩
    · have e : fillAll h (r :: rs) [] = (h, r :: rs) := by simp [fillAll]
      refine ⟨by rw [e], by rw [e], ?_⟩
      intro r' hr'
      rw [e] at hr'
      exact hlen r' hr'
    · rw [fillAll]
      have hfill := fill_phone_cols_stable r h ns hbase
        (hcols ns (List.mem_cons_self ns nss))
      have hrlen : r.length = h.length := hlen r (List.mem_cons_self r rs)
      have IH := ih nss (fun ns' hns' => hcols ns' (List.mem_cons_of_mem ns hns'))
        (fun r' hr' => hlen r' (List.mem_cons_of_mem r hr'))
      rw [hfill.1]
      refine ⟨IH.1, by simp [IH.2.1], ?_⟩
      intro r' hr'
      rcases List.mem_cons.mp hr' with rfl | hr'
      · have h1 := hfill.2.1
        have h2 := hfill.2.2
        rw [hrlen] at h1 h2
        omega
      · exact IH.2.2 r' hr'



/-! ### C4 support: loop bookkeeping -/

lemma p1_loop_append (C : P1Ctx) : ∀ (xs ys : List (List String)) (i : Nat) (st : P1State),
    p1_loop C i (xs ++ ys) st = p1_loop C (i + xs.length) ys (p1_loop C i xs st) := by
  intro xs
  induction xs with
  | nil => intro ys i st; simp [p1_loop]
  | cons x xs ih =>
    intro ys i st
    simp only [List.cons_append, p1_loop, List.length_cons, List.append_eq]
    rw [ih]
    have h : i + (xs.length + 1) = i + 1 + xs.length := by omega
    rw [h]

lemma p1_step_count (C : P1Ctx) (st : P1State) (i : Nat) (row : List String) :
    (p1_step C st i row).processed.length = st.processed.length + 1 ∧
    (p1_step C st i row).phones.length = st.phones.length + 1 := by
  rw [p1_step]
  split <;> simp

lemma p1_loop_count (C : P1Ctx) : ∀ (rows : List (List String)) (i : Nat) (st : P1State),
    (p1_loop C i rows st).processed.length = st.processed.length + rows.length ∧
    (p1_loop C i rows st).phones.length = st.phones.length + rows.length := by
  intro rows
  induction rows with
  | nil => intro i st; simp [p1_loop]
  | cons r rs ih =>
    intro i st
    simp only [p1_loop, List.length_cons]
    have hstep := p1_step_count C st i r
    have IH := ih (i + 1) (p1_step C st i r)
    omega

lemma p1_step_rowlen (C : P1Ctx) (st : P1State) (i : Nat) (row0 : List String)
    (hw : row0.length ≤ C.H.length)
    (hst : ∀ r ∈ st.processed, r.length = C.H.length) :
    ∀ r ∈ (p1_step C st i row0).processed, r.length = C.H.length := by
  have hpad : (row0 ++ List.replicate (C.H.length - row0.length) "").length = C.H.length := by
    rw [List.length_append, List.length_replicate]
    omega
  rw [p1_step]
  split
  · intro r hr
    rcases List.mem_append.mp hr with hr | hr
    · exact hst r hr
    · rw [List.mem_singleton.mp hr]
      exact hpad
  · intro r hr
    rcases List.mem_append.mp hr with hr | hr
    · exact hst r hr
    · rw [List.mem_singleton.mp hr]
      split
      · exact hpad
      · rw [length_p1_merge]
        exact hpad

lemma p1_loop_rowlen (C : P1Ctx) : ∀ (rows : List (List String)) (i : Nat) (st : P1State),
    (∀ r ∈ rows, r.length ≤ C.H.length) →
    (∀ r ∈ st.processed, r.length = C.H.length) →
    ∀ r ∈ (p1_loop C i rows st).processed, r.length = C.H.length := by
  intro rows
  induction rows with
  | nil => intro i st _ hst; exact hst
  | cons r rs ih =>
    intro i st hrows hst
    exact ih (i + 1) (p1_step C st i r)
      (fun r' hr' => hrows r' (List.mem_cons_of_mem r hr'))
      (p1_step_rowlen C st i r (hrows r (List.mem_cons_self r rs)) hst)

lemma p1_step_events_prefix (C : P1Ctx) (st : P1State) (i : Nat) (row : List String) :
    ∃ suf, (p1_step C st i row).events = st.events ++ suf := by
  rw [p1_step]
  split
  · exact ⟨_, rfl⟩
  · exact ⟨_, rfl⟩

lemma p1_loop_events_prefix (C : P1Ctx) : ∀ (rows : List (List String)) (i : Nat)
    (st : P1State), ∃ suf, (p1_loop C i rows st).events = st.events ++ suf := by
  intro rows
  induction rows with
  | nil => intro i st; exact ⟨[], by simp [p1_loop]⟩
  | cons r rs ih =>
    intro i st
    rcases p1_step_events_prefix C st i r with ⟨s1, h1⟩
    rcases ih (i + 1) (p1_step C st i r) with ⟨s2, h2⟩
    exact ⟨s1 ++ s2, by simp only [p1_loop, h2, h1, List.append_assoc]⟩

lemma p1_step_snap_mem (C : P1Ctx) (st : P1State) (i : Nat) (row : List String)
    (hPE : 0 < C.cfg.PARTIAL_EVERY) (hi : i % C.cfg.PARTIAL_EVERY = 0) :
    Ev.snapshot i
        (write_partial_snapshot C.H (p1_step C st i row).processed
          (p1_step C st i row).phones).1
        (write_partial_snapshot C.H (p1_step C st i row).processed
          (p1_step C st i row).phones).2
        (C.snOk i)
      ∈ (p1_step C st i row).events := by
  rw [p1_step]
  split
  · simp [p1RowEvents, p1SnapEv, hPE, hi]
  · simp [p1RowEvents, p1SnapEv, hPE, hi]

lemma p1_state_after_succ (C : P1Ctx) (data_rows : List (List String)) (k : Nat)
    (hk : k < data_rows.length) :
    p1_state_after C data_rows (k + 1)
      = p1_step C (p1_state_after C data_rows k) (k + 1) data_rows[k] := by
  rw [p1_state_after, p1_state_after, List.take_succ, List.getElem?_eq_getElem hk]
  simp only [Option.toList_some]
  rw [p1_loop_append]
  have hlen : (List.take k data_rows).length = k := by
    rw [List.length_take]
    omega
  rw [hlen]
  have h1 : 1 + k = k + 1 := by omega
  rw [h1]
  simp [p1_loop]


lemma fillAll_length : ∀ (rows : List (List String)) (h : List String)
    (pls : List (List String)), (fillAll h rows pls).2.length = rows.length := by
  intro rows
  induction rows with
  | nil => intro h pls; simp [fillAll]
  | cons r rs ih =>
    intro h pls
    rcases pls with _ | ⟨ns, nss⟩
    · simp [fillAll]
    · simp [fillAll, ih]

lemma rowsMatchHeader_iff (h : List String) (rows : List (List String)) :
    rowsMatchHeader h rows = true ↔ ∀ r ∈ rows, r.length = h.length := by
  simp [rowsMatchHeader, List.all_eq_true]

lemma hasPhoneFamily_iff (h : List String) (m : Nat) :
    hasPhoneFamily h m = true ↔
      OUT_COL_PHONE ∈ h ∧ ∀ k, 2 ≤ k → k ≤ m → phoneColName k ∈ h := by
  rw [hasPhoneFamily, Bool.and_eq_true, List.all_eq_true]
  constructor
  · rintro ⟨h1, h2⟩
    refine ⟨by simpa using h1, ?_⟩
    intro k hk2 hkm
    have := h2 k (by rw [List.mem_range'_1]; omega)
    simpa using this
  · rintro ⟨h1, h2⟩
    refine ⟨by simpa using h1, ?_⟩
    intro k hk
    rw [List.mem_range'_1] at hk
    simpa using h2 k hk.1 (by omega)

/-- C4: shape of the periodic Phase 1 snapshot.  The claim is corrected by
the hypothesis that no input row is wider than the built output header
(otherwise a snapshot row can exceed the header, see the counterexample):
after row `k` with `every_n > 0` and `k % every_n = 0`, the snapshot written
during the run holds exactly the `k` rows processed so far, every snapshot
row's cell count equals the snapshot header's length, and that header
carries the phone family up to the maximal width over the processed rows. -/
theorem c4_snapshot_shape
    (cfg : P1Config) (input_header : List String) (data_rows : List (List String))
    (call : Nat → Nat → Option CompanyInfo) (jitter : Nat → Nat → ℚ → ℚ)
    (ckOk snOk : Nat → Bool) (k : Nat)
    (hPE : 0 < cfg.PARTIAL_EVERY) (hkmod : k % cfg.PARTIAL_EVERY = 0)
    (hk1 : 1 ≤ k) (hklen : k ≤ data_rows.length)
    (hwidth : ∀ r ∈ data_rows,
      r.length ≤ (p1Ctx cfg input_header call jitter ckOk snOk).H.length) :
    Ev.snapshot k (p1SnapshotAt cfg input_header data_rows call jitter ckOk snOk k).1
        (p1SnapshotAt cfg input_header data_rows call jitter ckOk snOk k).2
        ((p1Ctx cfg input_header call jitter ckOk snOk).snOk k)
      ∈ (p1_run cfg input_header data_rows call jitter ckOk snOk).events ∧
    (p1SnapshotAt cfg input_header data_rows call jitter ckOk snOk k).2.length = k ∧
    rowsMatchHeader (p1SnapshotAt cfg input_header data_rows call jitter ckOk snOk k).1
        (p1SnapshotAt cfg input_header data_rows call jitter ckOk snOk k).2 = true ∧
    hasPhoneFamily (p1SnapshotAt cfg input_header data_rows call jitter ckOk snOk k).1
        (maxPhonesOf
          (p1_state_after (p1Ctx cfg input_header call jitter ckOk snOk) data_rows k).phones)
      = true := by
  have hcount := p1_loop_count (p1Ctx cfg input_header call jitter ckOk snOk)
    (data_rows.take k) 1 ⟨[], [], []⟩
  have htklen : (data_rows.take k).length = k := by
    rw [List.length_take]
    omega
  have hplen : (p1_state_after (p1Ctx cfg input_header call jitter ckOk snOk)
      data_rows k).processed.length = k := by
    rw [p1_state_after, hcount.1, htklen]
    simp
  have hrowlen : ∀ r ∈ (p1_state_after (p1Ctx cfg input_header call jitter ckOk snOk)
      data_rows k).processed,
      r.length = (p1Ctx cfg input_header call jitter ckOk snOk).H.length := by
    rw [p1_state_after]
    refine p1_loop_rowlen (p1Ctx cfg input_header call jitter ckOk snOk)
      (data_rows.take k) 1 ⟨[], [], []⟩ ?_ ?_
    · intro r hr
      exact hwidth r (List.take_subset k data_rows hr)
    · intro r hr
      cases hr
  have hext := ensure_phone_cols_ext (p1Ctx cfg input_header call jitter ckOk snOk).H
    (maxPhonesOf (p1_state_after (p1Ctx cfg input_header call jitter ckOk snOk)
      data_rows k).phones)
  have hstable := fillAll_stable
    (ensure_phone_cols (p1Ctx cfg input_header call jitter ckOk snOk).H
      (maxPhonesOf (p1_state_after (p1Ctx cfg input_header call jitter ckOk snOk)
        data_rows k).phones))
    hext.2.2.2.1
    ((p1_state_after (p1Ctx cfg input_header call jitter ckOk snOk) data_rows k).processed.map
      (fun r => r ++ List.replicate
        ((ensure_phone_cols (p1Ctx cfg input_header call jitter ckOk snOk).H
          (maxPhonesOf (p1_state_after (p1Ctx cfg input_header call jitter ckOk snOk)
            data_rows k).phones)).length - r.length) ""))
    (p1_state_after (p1Ctx cfg input_header call jitter ckOk snOk) data_rows k).phones
    (by
      intro ns hns j hj2 hjns
      exact hext.2.2.2.2 j hj2 (le_trans hjns (le_maxPhonesOf _ ns hns)))
    (by
      intro r hr
      rcases List.mem_map.mp hr with ⟨r0, hr0, rfl⟩
      rw [List.length_append, List.length_replicate, hrowlen r0 hr0]
      have := hext.1
      omega)
  have hsnap_eq : p1SnapshotAt cfg input_header data_rows call jitter ckOk snOk k
      = write_partial_snapshot (p1Ctx cfg input_header call jitter ckOk snOk).H
        (p1_state_after (p1Ctx cfg input_header call jitter ckOk snOk) data_rows k).processed
        (p1_state_after (p1Ctx cfg input_header call jitter ckOk snOk) data_rows k).phones := by
    rw [p1SnapshotAt]
  refine ⟨?_, ?_, ?_, ?_⟩
  · rcases Nat.exists_eq_succ_of_ne_zero (by omega : k ≠ 0) with ⟨k1, hkk⟩
    have hk1lt : k1 < data_rows.length := by omega
    have hsucc := p1_state_after_succ (p1Ctx cfg input_header call jitter ckOk snOk)
      data_rows k1 hk1lt
    rw [show k1 + 1 = k from hkk.symm] at hsucc
    have hmem := p1_step_snap_mem (p1Ctx cfg input_header call jitter ckOk snOk)
      (p1_state_after (p1Ctx cfg input_header call jitter ckOk snOk) data_rows k1) k
      data_rows[k1] hPE hkmod
    rw [← hsucc] at hmem
    have hsplit : p1_loop (p1Ctx cfg input_header call jitter ckOk snOk) 1 data_rows
        ⟨[], [], []⟩
        = p1_loop (p1Ctx cfg input_header call jitter ckOk snOk) (1 + k)
          (data_rows.drop k)
          (p1_state_after (p1Ctx cfg input_header call jitter ckOk snOk) data_rows k) := by
      rw [p1_state_after]
      rw [show (1 : Nat) + k = 1 + (data_rows.take k).length from by rw [htklen]]
      rw [← p1_loop_append]
      rw [List.take_append_drop]
    rcases p1_loop_events_prefix (p1Ctx cfg input_header call jitter ckOk snOk)
      (data_rows.drop k) (1 + k)
      (p1_state_after (p1Ctx cfg input_header call jitter ckOk snOk) data_rows k) with
      ⟨suf, hsuf⟩
    rw [hsnap_eq]
    simp only [p1_run]
    refine List.mem_append_left _ ?_
    rw [hsplit, hsuf]
    exact List.mem_append_left _ hmem
  · rw [hsnap_eq, write_partial_snapshot, fillAll_length, List.length_map, hplen]
  · rw [rowsMatchHeader_iff]
    intro r hr
    rw [hsnap_eq, write_partial_snapshot] at hr ⊢
    rw [hstable.1]
    exact hstable.2.2 r hr
  · have h1 : (p1SnapshotAt cfg input_header data_rows call jitter ckOk snOk k).1
        = ensure_phone_cols (p1Ctx cfg input_header call jitter ckOk snOk).H
          (maxPhonesOf (p1_state_after (p1Ctx cfg input_header call jitter ckOk snOk)
            data_rows k).phones) := by
      rw [hsnap_eq, write_partial_snapshot]
      exact hstable.1
    rw [h1, hasPhoneFamily_iff]
    exact ⟨hext.2.2.2.1, fun k2 h2 hm => hext.2.2.2.2 k2 h2 hm⟩

/-- C4 counterexample: with an input data row wider than the built output header
(11 cells against a 10-column header), the periodic snapshot written after row 1
(with PARTIAL_EVERY = 1) contains a data row whose cell count differs from the
snapshot header length, refuting the unconditional claim. -/
theorem c4_counterexample :
    0 < (1 : Nat) ∧ 1 % 1 = 0 ∧
    rowsMatchHeader
      (p1SnapshotAt ⟨1, 0, 9/5, 1, 12⟩ ["ADDRESS", "POSTCODE"]
        [["a", "b", "", "", "", "", "", "", "", "", "extra"]]
        (fun _ _ => none) (fun _ _ _ => 0) (fun _ => true) (fun _ => true) 1).1
      (p1SnapshotAt ⟨1, 0, 9/5, 1, 12⟩ ["ADDRESS", "POSTCODE"]
        [["a", "b", "", "", "", "", "", "", "", "", "extra"]]
        (fun _ _ => none) (fun _ _ _ => 0) (fun _ => true) (fun _ => true) 1).2 = false :=
  ⟨Nat.one_pos, rfl, rfl⟩

/-- Witness for the C4 theorem at a concrete run: one processed row, snapshot
after row 1 with PARTIAL_EVERY = 1. -/
theorem c4_snapshot_shape_witness :
    rowsMatchHeader
      (p1SnapshotAt ⟨1, 0, 9/5, 1, 12⟩ ["ADDRESS", "POSTCODE"] [["a", "b"]]
        (fun _ _ => none) (fun _ _ _ => 0) (fun _ => true) (fun _ => true) 1).1
      (p1SnapshotAt ⟨1, 0, 9/5, 1, 12⟩ ["ADDRESS", "POSTCODE"] [["a", "b"]]
        (fun _ _ => none) (fun _ _ _ => 0) (fun _ => true) (fun _ => true) 1).2 = true ∧
    (p1SnapshotAt ⟨1, 0, 9/5, 1, 12⟩ ["ADDRESS", "POSTCODE"] [["a", "b"]]
      (fun _ _ => none) (fun _ _ _ => 0) (fun _ => true) (fun _ => true) 1).2.length = 1 := by
  have h := c4_snapshot_shape ⟨1, 0, 9/5, 1, 12⟩ ["ADDRESS", "POSTCODE"] [["a", "b"]]
    (fun _ _ => none) (fun _ _ _ => 0) (fun _ => true) (fun _ => true) 1
    (by decide) (by decide) (by decide) (by decide) (by decide)
  exact ⟨h.2.2.1, h.2.1⟩

/-! ### C5 support: the writer's output parses back -/

lemma isEmpty_false_of_ne_nil {α : Type} (l : List α) (h : l ≠ []) : l.isEmpty = false := by
  cases l with
  | nil => exact absurd rfl h
  | cons c cs => rfl

lemma parseAppend_delim (d : Char) : ∀ (f : List Char) (rest : List Char),
    (∀ c ∈ f, c ≠ d ∧ c ≠ '\n' ∧ c ≠ '\r') →
    parseAppend d (f ++ d :: rest) = (f, some d, rest) := by
  intro f
  induction f with
  | nil => intro rest hf; simp [parseAppend]
  | cons c f ih =>
    intro rest hf
    have hc := hf c (List.mem_cons_self c f)
    have hrec := ih rest (fun x hx => hf x (List.mem_cons_of_mem c hx))
    simp [parseAppend, hc.1, hc.2.1, hc.2.2, hrec]

lemma parseAppend_nl (d : Char) (hdn : d ≠ '\n') : ∀ (f : List Char) (rest : List Char),
    (∀ c ∈ f, c ≠ d ∧ c ≠ '\n' ∧ c ≠ '\r') →
    parseAppend d (f ++ '\n' :: rest) = (f, some '\n', rest) := by
  intro f
  induction f with
  | nil =>
    intro rest hf
    simp [parseAppend, Ne.symm hdn]
  | cons c f ih =>
    intro rest hf
    have hc := hf c (List.mem_cons_self c f)
    have hrec := ih rest (fun x hx => hf x (List.mem_cons_of_mem c hx))
    simp [parseAppend, hc.1, hc.2.1, hc.2.2, hrec]

lemma parseQuoted_esc : ∀ (f : List Char) (rest : List Char),
    (∀ c, rest.head? = some c → c ≠ '"') →
    parseQuoted (escQuoteW '"' f ++ '"' :: rest) = (f, rest) := by
  intro f
  induction f with
  | nil =>
    intro rest hrest
    cases rest with
    | nil => simp [escQuoteW, parseQuoted]
    | cons c2 rest2 =>
      have h2 : c2 ≠ '"' := hrest c2 rfl
      simp [escQuoteW, parseQuoted, h2]
  | cons c f ih =>
    intro rest hrest
    by_cases hc : c = '"'
    · subst hc
      simp [escQuoteW, parseQuoted, ih rest hrest]
    · have h1 : escQuoteW '"' (c :: f) = c :: escQuoteW '"' f := by
        simp [escQuoteW, hc]
      rw [h1, List.cons_append, parseQuoted.eq_def]
      simp [hc, ih rest hrest]

lemma not_needsQuote_clean (d : Char) (s : List Char)
    (hq : needsQuoteW d '"' ['\n'] s = false) :
    ∀ c ∈ s, c ≠ d ∧ c ≠ '"' ∧ c ≠ '\n' := by
  intro c hcmem
  rw [needsQuoteW] at hq
  have h := List.any_eq_false.mp hq c hcmem
  refine ⟨fun he => ?_, fun he => ?_, fun he => ?_⟩ <;> subst he <;> simp at h

lemma parseField_write (d : Char) (hdq : d ≠ '"') (hdn : d ≠ '\n')
    (s : String) (hcr : '\r' ∉ s.toList) (t : Char) (ht : t = d ∨ t = '\n')
    (rest : List Char) :
    parseField ⟨d, false⟩ (writeFieldW d '"' ['\n'] s ++ t :: rest)
      = (s.toList, some t, rest) := by
  have htq : t ≠ '"' := by
    rcases ht with h | h
    · rw [h]; exact hdq
    · rw [h]; decide
  have happ : parseAppend d (t :: rest) = ([], some t, rest) := by
    rcases ht with h | h
    · subst h; simp [parseAppend]
    · subst h; simp [parseAppend, Ne.symm hdn]
  rw [writeFieldW]
  by_cases hq : needsQuoteW d '"' ['\n'] s.toList = true
  · rw [if_pos hq]
    have hesc := parseQuoted_esc s.toList (t :: rest)
      (by intro c hc; rw [List.head?_cons] at hc; cases hc; exact htq)
    have hshape : ('"' :: escQuoteW '"' s.toList ++ ['"']) ++ t :: rest
        = '"' :: (escQuoteW '"' s.toList ++ '"' :: (t :: rest)) := by
      simp
    rw [hshape]
    have hesc2 : parseQuoted (escQuoteW '"' s.data ++ '"' :: t :: rest) = (s.data, t :: rest) :=
      hesc
    simp [parseField, hesc2, happ]
  · rw [if_neg hq]
    rw [Bool.not_eq_true] at hq
    have hclean := not_needsQuote_clean d s.toList hq
    cases hs : s.toList with
    | nil =>
      simp [parseField, happ, htq]
    | cons c0 cs0 =>
      rw [hs] at hclean
      have hcr' : '\r' ∉ c0 :: cs0 := by rw [hs] at hcr; exact hcr
      have hclean' : ∀ c ∈ c0 :: cs0, c ≠ d ∧ c ≠ '\n' ∧ c ≠ '\r' :=
        fun c hcm => ⟨(hclean c hcm).1, (hclean c hcm).2.2,
          fun he => hcr' (he ▸ hcm)⟩
      have hdel : parseAppend d ((c0 :: cs0) ++ t :: rest) = (c0 :: cs0, some t, rest) := by
        rcases ht with h | h
        · rw [h]; exact parseAppend_delim d _ rest hclean'
        · rw [h]; exact parseAppend_nl d hdn _ rest hclean'
      rw [List.cons_append] at hdel
      have hc0q : c0 ≠ '"' := (hclean c0 (List.mem_cons_self c0 cs0)).2.1
      simp [parseField, hc0q, hdel]

lemma parseRecordAux_write (d : Char) (hdq : d ≠ '"') (hdn : d ≠ '\n') :
    ∀ (fs : List String) (fuel : Nat) (rest : List Char),
    fs ≠ [] → fs.length ≤ fuel →
    (∀ c ∈ fs, '\r' ∉ c.toList) →
    parseRecordAux ⟨d, false⟩ fuel (writeRecordAuxW d '"' ['\n'] fs ++ rest)
      = (fs.map String.toList, rest) := by
  intro fs
  induction fs with
  | nil => intro fuel rest hne; exact absurd rfl hne
  | cons f fs ih =>
    intro fuel rest _ hfuel hcr
    obtain ⟨fuel0, rfl⟩ : ∃ k, fuel = k + 1 := by
      cases fuel with
      | zero => simp at hfuel
      | succ k => exact ⟨k, rfl⟩
    have hcrf : '\r' ∉ f.toList := hcr f (List.mem_cons_self f fs)
    cases fs with
    | nil =>
      have hshape : writeRecordAuxW d '"' ['\n'] [f] ++ rest
          = writeFieldW d '"' ['\n'] f ++ '\n' :: rest := by
        simp [writeRecordAuxW]
      rw [hshape]
      have hfld : parseField ⟨d, false⟩ (writeFieldW d '"' ['\n'] f ++ '\n' :: rest)
          = (f.data, some '\n', rest) :=
        parseField_write d hdq hdn f hcrf '\n' (Or.inr rfl) rest
      simp [parseRecordAux, hfld, Ne.symm hdn]
    | cons f2 fs2 =>
      have hshape : writeRecordAuxW d '"' ['\n'] (f :: f2 :: fs2) ++ rest
          = writeFieldW d '"' ['\n'] f
            ++ d :: (writeRecordAuxW d '"' ['\n'] (f2 :: fs2) ++ rest) := by
        simp [writeRecordAuxW]
      rw [hshape]
      have hfld : parseField ⟨d, false⟩ (writeFieldW d '"' ['\n'] f
            ++ d :: (writeRecordAuxW d '"' ['\n'] (f2 :: fs2) ++ rest))
          = (f.data, some d, writeRecordAuxW d '"' ['\n'] (f2 :: fs2) ++ rest) :=
        parseField_write d hdq hdn f hcrf d (Or.inl rfl)
          (writeRecordAuxW d '"' ['\n'] (f2 :: fs2) ++ rest)
      have hrec := ih fuel0 rest (by simp) (by simp at hfuel ⊢; omega)
        (fun c hc => hcr c (List.mem_cons_of_mem f hc))
      simp [parseRecordAux, hfld, hrec]

lemma toList_eq_nil_iff_str (s : String) : s.toList = [] ↔ s = "" := by
  constructor
  · intro h
    have h2 : String.mk s.toList = String.mk [] := by rw [h]
    exact h2
  · intro h; rw [h]; rfl

lemma writeRecordAux_head (d : Char) (hdn : d ≠ '\n') (hdr : d ≠ '\r')
    (f : String) (fs : List String)
    (hne : f :: fs ≠ [""]) (hcrf : '\r' ∉ f.toList) :
    ∃ c cs0, writeRecordAuxW d '"' ['\n'] (f :: fs) = c :: cs0 ∧ c ≠ '\n' ∧ c ≠ '\r' := by
  by_cases hq : needsQuoteW d '"' ['\n'] f.toList = true
  · have hq2 : needsQuoteW d '"' ['\n'] f.data = true := hq
    cases fs with
    | nil =>
      refine ⟨'"', escQuoteW '"' f.data ++ ['"'] ++ ['\n'], ?_, by decide, by decide⟩
      simp [writeRecordAuxW, writeFieldW, hq2]
    | cons f2 fs2 =>
      refine ⟨'"',
        escQuoteW '"' f.data ++ ['"'] ++ d :: writeRecordAuxW d '"' ['\n'] (f2 :: fs2),
        ?_, by decide, by decide⟩
      simp [writeRecordAuxW, writeFieldW, hq2]
  · rw [Bool.not_eq_true] at hq
    have hq2 : needsQuoteW d '"' ['\n'] f.data = false := hq
    have hclean := not_needsQuote_clean d f.toList hq
    cases hs : f.toList with
    | nil =>
      have hs2 : f.data = [] := hs
      have hf : f = "" := (toList_eq_nil_iff_str f).mp hs
      cases fs with
      | nil => exact absurd (by rw [hf]) hne
      | cons f2 fs2 =>
        refine ⟨d, writeRecordAuxW d '"' ['\n'] (f2 :: fs2), ?_, hdn, hdr⟩
        simp [writeRecordAuxW, writeFieldW, needsQuoteW, hs2]
    | cons c0 cs0 =>
      have hs2 : f.data = c0 :: cs0 := hs
      have hc0 := hclean c0 (by rw [hs]; exact List.mem_cons_self c0 cs0)
      have hc0r : c0 ≠ '\r' :=
        fun he => hcrf (by rw [hs, ← he] at *; exact List.mem_cons_self c0 cs0)
      have hq3 : needsQuoteW d '"' ['\n'] (c0 :: cs0) = false := by
        rw [← hs2]; exact hq2
      cases fs with
      | nil =>
        refine ⟨c0, cs0 ++ ['\n'], ?_, hc0.2.2, hc0r⟩
        simp [writeRecordAuxW, writeFieldW, hq3, hs2]
      | cons f2 fs2 =>
        refine ⟨c0, cs0 ++ d :: writeRecordAuxW d '"' ['\n'] (f2 :: fs2), ?_, hc0.2.2, hc0r⟩
        simp [writeRecordAuxW, writeFieldW, hq3, hs2]

lemma writeRecordAux_len (d : Char) : ∀ (fs : List String),
    fs.length ≤ (writeRecordAuxW d '"' ['\n'] fs).length := by
  intro fs
  induction fs with
  | nil => simp [writeRecordAuxW]
  | cons f fs ih =>
    cases fs with
    | nil => simp [writeRecordAuxW]
    | cons f2 fs2 =>
      have hshape : writeRecordAuxW d '"' ['\n'] (f :: f2 :: fs2)
          = writeFieldW d '"' ['\n'] f ++ d :: writeRecordAuxW d '"' ['\n'] (f2 :: fs2) := by
        simp [writeRecordAuxW]
      rw [hshape]
      simp only [List.length_append, List.length_cons] at ih ⊢
      omega

lemma parseRecord_write (d : Char) (hdq : d ≠ '"') (hdn : d ≠ '\n') (hdr : d ≠ '\r')
    (fs : List String) (rest : List Char)
    (hne : fs ≠ []) (hne1 : fs ≠ [""]) (hcr : ∀ c ∈ fs, '\r' ∉ c.toList) :
    parseRecord ⟨d, false⟩ (writeRecordW d '"' ['\n'] fs ++ rest) = (fs, rest) := by
  rw [writeRecordW, if_neg hne1]
  cases fs with
  | nil => exact absurd rfl hne
  | cons f fs =>
    obtain ⟨c, cs0, heq, hc1, hc2⟩ := writeRecordAux_head d hdn hdr f fs hne1
      (hcr f (List.mem_cons_self f fs))
    have hshape : writeRecordAuxW d '"' ['\n'] (f :: fs) ++ rest = c :: (cs0 ++ rest) := by
      rw [heq]; simp
    have haux := parseRecordAux_write d hdq hdn (f :: fs)
      ((writeRecordAuxW d '"' ['\n'] (f :: fs) ++ rest).length + 1) rest (by simp) ?_ hcr
    · rw [hshape, parseRecord, if_neg hc1, if_neg hc2]
      rw [← hshape, haux]
      have hmapid : ∀ (l : List String), List.map (String.mk ∘ String.toList) l = l := by
        intro l
        induction l with
        | nil => rfl
        | cons a l ihl =>
          simp only [List.map_cons, ihl]
          rfl
      simp [List.map_map, hmapid]
    · have h1 := writeRecordAux_len d (f :: fs)
      simp only [List.length_append, List.length_cons] at h1 ⊢
      omega

lemma writeRecordW_ne_nil (d : Char) (fs : List String) :
    writeRecordW d '"' ['\n'] fs ≠ [] := by
  rw [writeRecordW]
  by_cases h : fs = [""]
  · rw [if_pos h]; simp
  · rw [if_neg h]
    cases fs with
    | nil => simp [writeRecordAuxW]
    | cons f fs =>
      cases fs with
      | nil =>
        rw [writeRecordAuxW]
        intro hcon
        have h2 := congrArg List.length hcon
        simp at h2
      | cons f2 fs2 =>
        have hshape : writeRecordAuxW d '"' ['\n'] (f :: f2 :: fs2)
            = writeFieldW d '"' ['\n'] f ++ d :: writeRecordAuxW d '"' ['\n'] (f2 :: fs2) := by
          simp [writeRecordAuxW]
        rw [hshape]
        intro hcon
        have h2 := congrArg List.length hcon
        simp at h2

lemma parseTableAux_write (d : Char) (hdq : d ≠ '"') (hdn : d ≠ '\n') (hdr : d ≠ '\r') :
    ∀ (rows : List (List String)) (fuel : Nat),
    rows.length ≤ fuel →
    (∀ r ∈ rows, r ≠ [] ∧ r ≠ [""] ∧ ∀ c ∈ r, '\r' ∉ c.toList) →
    parseTableAux ⟨d, false⟩ fuel (writeTableW d '"' ['\n'] rows) = rows := by
  intro rows
  induction rows with
  | nil =>
    intro fuel _ _
    cases fuel with
    | zero => rfl
    | succ k => simp [writeTableW, parseTableAux]
  | cons r rows ih =>
    intro fuel hfuel hrows
    obtain ⟨fuel0, rfl⟩ : ∃ k, fuel = k + 1 := by
      cases fuel with
      | zero => simp at hfuel
      | succ k => exact ⟨k, rfl⟩
    have hr := hrows r (List.mem_cons_self r rows)
    have hshape : writeTableW d '"' ['\n'] (r :: rows)
        = writeRecordW d '"' ['\n'] r ++ writeTableW d '"' ['\n'] rows := by
      simp [writeTableW]
    have hemp : (writeRecordW d '"' ['\n'] r ++ writeTableW d '"' ['\n'] rows).isEmpty
        = false := by
      refine isEmpty_false_of_ne_nil _ (fun hcon => ?_)
      exact writeRecordW_ne_nil d r (List.append_eq_nil.mp hcon).1
    have hrecw := parseRecord_write d hdq hdn hdr r (writeTableW d '"' ['\n'] rows)
      hr.1 hr.2.1 hr.2.2
    have hrest := ih fuel0 (by simp at hfuel ⊢; omega)
      (fun x hx => hrows x (List.mem_cons_of_mem r hx))
    rw [hshape]
    simp [parseTableAux, hemp, hrecw, hrest]

lemma writeTableW_len (d : Char) : ∀ (rows : List (List String)),
    rows.length ≤ (writeTableW d '"' ['\n'] rows).length := by
  intro rows
  induction rows with
  | nil => simp [writeTableW]
  | cons r rows ih =>
    have hshape : writeTableW d '"' ['\n'] (r :: rows)
        = writeRecordW d '"' ['\n'] r ++ writeTableW d '"' ['\n'] rows := by
      simp [writeTableW]
    rw [hshape]
    have h1 : 1 ≤ (writeRecordW d '"' ['\n'] r).length := by
      have h2 := writeRecordW_ne_nil d r
      cases h : writeRecordW d '"' ['\n'] r with
      | nil => exact absurd h h2
      | cons c cs => simp
    simp only [List.length_append, List.length_cons]
    omega

/-- C5: round-trip of the CSV writer and reader.  As claimed it is false
(see the counterexample: a row whose only cell is `" "` is non-empty but
is dropped by `read_rows`); amended with the conditions under which the
source does round-trip: the delimiter is none of `"`, LF, CR, every row
has a cell that is non-blank after stripping, and no cell contains a
carriage return.  Then reading back the written file restores every row
(hence every originally non-empty cell). -/
theorem c5_round_trip (dl : Dialect) (header : List String) (rows : List (List String))
    (hdq : dl.delimiter ≠ '"') (hdn : dl.delimiter ≠ '\n') (hdr2 : dl.delimiter ≠ '\r')
    (hnb : ∀ r ∈ header :: rows, ∃ c ∈ r, pyStrip c ≠ "")
    (hcr : ∀ r ∈ header :: rows, ∀ c ∈ r, '\r' ∉ c.toList) :
    read_rows_content ⟨dl.delimiter, false⟩ (write_rows_content dl header rows)
      = header :: rows := by
  have hprops : ∀ r ∈ header :: rows, r ≠ [] ∧ r ≠ [""] ∧ ∀ c ∈ r, '\r' ∉ c.toList := by
    intro r hr
    obtain ⟨c, hcm, hcne⟩ := hnb r hr
    refine ⟨List.ne_nil_of_mem hcm, ?_, hcr r hr⟩
    intro hcon
    rw [hcon] at hcm
    simp at hcm
    rw [hcm] at hcne
    exact hcne (by decide)
  have hparse : parseTable ⟨dl.delimiter, false⟩ (write_rows_content dl header rows)
      = header :: rows := by
    rw [write_rows_content, parseTable]
    refine parseTableAux_write dl.delimiter hdq hdn hdr2 (header :: rows) _ ?_ hprops
    have h1 := writeTableW_len dl.delimiter (header :: rows)
    omega
  rw [read_rows_content, hparse]
  refine List.filter_eq_self.mpr ?_
  intro r hr
  obtain ⟨c, hcm, hcne⟩ := hnb r hr
  have hne : r ≠ [] := List.ne_nil_of_mem hcm
  simp [List.any_eq_true, isEmpty_false_of_ne_nil r hne]
  exact ⟨c, hcm, hcne⟩

/-- C5 counterexample: the cell `" "` is a non-empty string, yet writing
the table and reading it back with the very same dialect (with either
skipinitialspace value) loses the whole row, because `read_rows` drops
rows whose cells are all blank after stripping. -/
theorem c5_counterexample :
    (" " : String) ≠ "" ∧
    read_rows_content ⟨',', false⟩ (write_rows_content ⟨',', '"', ['\n']⟩ ["A"] [[" "]])
      = [["A"]] ∧
    read_rows_content ⟨',', true⟩ (write_rows_content ⟨',', '"', ['\n']⟩ ["A"] [[" "]])
      = [["A"]] :=
  ⟨by decide, rfl, rfl⟩

/-- Witness for the C5 theorem at a concrete table. -/
theorem c5_round_trip_witness :
    read_rows_content ⟨',', false⟩ (write_rows_content ⟨',', '"', ['\n']⟩ ["A"] [["b"]])
      = [["A"], ["b"]] :=
  c5_round_trip ⟨',', '"', ['\n']⟩ ["A"] [["b"]] (by decide) (by decide) (by decide)
    (by decide) (by decide)

end BrowserAgent
